import Mathlib

/-
Verification of the forest lifecycle orchestration subsystem of `workforest`
(a git multi-repository worktree manager written in Rust) against its
natural-language specification.

The Rust sources are shallowly embedded:
  * filesystem paths (`std::path::PathBuf`) become `RPath`, an absoluteness
    flag plus a component list, with `join` / `starts_with` following the
    Unix `Path` semantics used by the program (components are split on `/`;
    empty and `.` segments are dropped, `..` is kept un-normalised, and
    joining an absolute path replaces the base — exactly the behaviour of
    `PathBuf::join` / `Path::starts_with` that the code relies on);
  * every external call (the `git` process runner, `std::fs` mutations and
    existence probes) is answered by a `GitEnv` of deterministic oracles, and
    each call performed is recorded in order as an `Effect`, so "the code
    performed no mutation" is the statement that the effect trace is empty;
  * Rust `assert!` panics are modelled by returning `none` from the
    executors (`Option`-wrapped results);
  * fallible Rust functions returning `anyhow::Result` become
    `Except String`.
Rust `format!` strings are rebuilt with `++`; the `{:?}` debug form of a
string is modelled as surrounding quotes (escaping inside the quoted text is
not modelled; no claim depends on it).
-/

-- ## String containment helper (for claims about error-message content)

/-- Whether `needle` is an initial segment of `hay` (on character lists). -/
def charsStart : List Char → List Char → Bool
  | [], _ => true
  | _ :: _, [] => false
  | a :: as, b :: bs => a == b && charsStart as bs

/-- Whether `needle` occurs contiguously inside `hay` (on character lists). -/
def charsContain (needle : List Char) : List Char → Bool
  | [] => charsStart needle []
  | c :: t => charsStart needle (c :: t) || charsContain needle t

/-- Whether the string `needle` occurs contiguously inside `hay`. -/
def strContains (hay needle : String) : Bool :=
  charsContain needle.data hay.data

theorem charsStart_self_append (n b : List Char) : charsStart n (n ++ b) = true := by
  induction n with
  | nil => rfl
  | cons a as ih => simp [charsStart, ih]

theorem charsContain_nil (l : List Char) : charsContain [] l = true := by
  cases l <;> simp [charsContain, charsStart]

theorem charsContain_self_append (n b : List Char) :
    charsContain n (n ++ b) = true := by
  cases n with
  | nil => exact charsContain_nil b
  | cons c cs => simp [charsContain, charsStart, charsStart_self_append]

theorem charsContain_append_mid (a n b : List Char) :
    charsContain n (a ++ (n ++ b)) = true := by
  induction a with
  | nil => simpa using charsContain_self_append n b
  | cons c cs ih => simp [charsContain, ih]

theorem strContains_append_mid (a n b : String) :
    strContains (a ++ (n ++ b)) n = true := by
  cases a with
  | mk da =>
    cases n with
    | mk dn =>
      cases b with
      | mk db =>
        show charsContain dn (da ++ (dn ++ db)) = true
        exact charsContain_append_mid da dn db

-- ## Path model (src/paths.rs + std::path semantics)

/-- Unix `Path` model: an absoluteness flag plus normalised components.
`Path::components` drops empty and `.` segments and keeps `..`. -/
structure RPath where
  absolute : Bool
  components : List String
deriving DecidableEq, Repr

/-- Split a character list at every `/` (the list of segments, empty
segments included — the behaviour of splitting on a single-character
separator). -/
def splitSlashAux : List Char → List Char → List (List Char)
  | [], acc => [acc.reverse]
  | c :: rest, acc =>
    if c = '/' then acc.reverse :: splitSlashAux rest []
    else splitSlashAux rest (c :: acc)

/-- Split a path string into components the way `Path::components` does:
split on `/`, dropping empty and `.` segments. -/
def splitComponents (s : String) : List String :=
  ((splitSlashAux s.data []).map String.mk).filter (fun c => c != "" && c != ".")

/-- Structural string-prefix test (Rust `str::starts_with`); defined on the
character lists so that it evaluates by kernel reduction. -/
def strIsPrefixOf (p s : String) : Bool :=
  charsStart p.data s.data

/-- Whether a path string is absolute (`Path::is_absolute` on Unix: has a
root, i.e. begins with `/`). -/
def strHasRoot (s : String) : Bool :=
  strIsPrefixOf "/" s

/-- `PathBuf::join`: joining an absolute path replaces the base entirely;
joining a relative path appends its components. -/
def RPath.joinStr (p : RPath) (s : String) : RPath :=
  if strHasRoot s then { absolute := true, components := splitComponents s }
  else { absolute := p.absolute, components := p.components ++ splitComponents s }

/-- Component-list ordering used by `Path::starts_with`: the first list is an
initial segment of the second. -/
def compsLE : List String → List String → Bool
  | [], _ => true
  | _ :: _, [] => false
  | a :: as, b :: bs => a == b && compsLE as bs

/-- `child.starts_with(base)`: same root and `base`'s components are an
initial segment of `child`'s. -/
def RPath.startsWith (child base : RPath) : Bool :=
  (child.absolute == base.absolute) && compsLE base.components child.components

/-- Render a path back to a string (used where the code passes a path to git
via `to_string_lossy`). -/
def RPath.render (p : RPath) : String :=
  (if p.absolute then "/" else "") ++ String.intercalate "/" p.components

-- ## External-call model

/-- One recorded external call (mutating or querying); traces of these are
the observable behaviour of the executors. -/
inductive Effect where
  | gitCall (repo : RPath) (args : List String)
  | fsRemoveDirAll (p : RPath)
  | fsRemoveFile (p : RPath)
  | fsRemoveDir (p : RPath)
  | fsCreateDir (p : RPath)
  | fsCreateDirAll (p : RPath)
  | fsWriteFile (p : RPath)
deriving DecidableEq, Repr

/-- Deterministic oracles answering the program's external calls: the `git`
process runner (`src/git.rs::git`), the ref-existence query
(`src/git.rs::ref_exists`, whose process-failure arm is not modelled), the
`std::fs` mutations, the existence/directory probes, and the forest-metadata
scan `forest::find_forest` (an error result, `none`, or a colliding
forest's directory and logical name). -/
structure GitEnv where
  git : RPath → List String → Except String String
  refExists : RPath → String → Bool
  pathExists : RPath → Bool
  isDir : RPath → Bool
  removeDirAll : RPath → Except String Unit
  removeFile : RPath → Except String Unit
  removeDir : RPath → Except String Unit
  createDir : RPath → Except String Unit
  createDirAll : RPath → Except String Unit
  writeFile : RPath → Except String Unit
  findForest : RPath → String → Except String (Option (RPath × String))

-- ## Removal data model (src/commands/rm.rs)

/-- One repository's removal plan, carrying the live-probed facts frozen at
plan time (`RepoRmPlan`). -/
structure RepoRmPlan where
  name : String
  worktreePath : RPath
  source : RPath
  branch : String
  baseBranch : String
  branchCreated : Bool
  worktreeExists : Bool
  sourceExists : Bool
  hasDirtyFiles : Bool
deriving DecidableEq, Repr

/-- A forest removal plan (`RmPlan`). -/
structure RmPlan where
  forestName : String
  forestDir : RPath
  repoPlans : List RepoRmPlan
deriving DecidableEq, Repr

/-- Per-step removal outcome (`RmOutcome`). -/
inductive RmOutcome where
  | success
  | skipped (reason : String)
  | failed (error : String)
deriving DecidableEq, Repr

/-- Per-repository removal result (`RepoRmResult`). -/
structure RepoRmResult where
  name : String
  worktreeRemoved : RmOutcome
  branchDeleted : RmOutcome
deriving DecidableEq, Repr

/-- Overall removal result (`RmResult`). -/
structure RmResult where
  forestName : String
  forestDir : RPath
  dryRun : Bool
  force : Bool
  repos : List RepoRmResult
  forestDirRemoved : Bool
  errors : List String
deriving DecidableEq, Repr

/-- Metadata of one repository persisted in the forest's meta file
(`meta.rs::RepoMeta`; `name` is a `RepoName`, validated nonempty). -/
structure RepoMeta where
  name : String
  source : RPath
  branch : String
  baseBranch : String
  branchCreated : Bool
deriving DecidableEq, Repr

/-- Forest mode (`meta.rs::ForestMode`). -/
inductive ForestMode where
  | feature
  | review
deriving DecidableEq, Repr

/-- The persisted forest record (`meta.rs::ForestMeta`; the creation
timestamp is modelled as an opaque number). -/
structure ForestMeta where
  name : String
  createdAt : Nat
  mode : ForestMode
  repos : List RepoMeta
deriving DecidableEq, Repr

/-- Fixed metadata filename (`meta.rs::META_FILENAME`). -/
def META_FILENAME : String := ".forest-meta.toml"

-- ## Removal planning (src/commands/rm.rs::plan_rm, read-only)

/-- `plan_rm`: probe each repository's live state once and freeze it into
the plan. The dirty probe is `git status --porcelain` in the worktree; a
probe error is treated as "not dirty" (`unwrap_or(false)`). -/
def plan_rm (env : GitEnv) (forestDir : RPath) (meta : ForestMeta) : RmPlan :=
  { forestName := meta.name
    forestDir := forestDir
    repoPlans := meta.repos.map (fun repo =>
      let worktreePath := forestDir.joinStr repo.name
      let worktreeExists := env.pathExists worktreePath
      let hasDirtyFiles := worktreeExists &&
        (match env.git worktreePath ["status", "--porcelain"] with
         | .ok output => !output.isEmpty
         | .error _ => false)
      { name := repo.name
        worktreePath := worktreePath
        source := repo.source
        branch := repo.branch
        baseBranch := repo.baseBranch
        branchCreated := repo.branchCreated
        worktreeExists := worktreeExists
        sourceExists := env.isDir repo.source
        hasDirtyFiles := hasDirtyFiles }) }

-- ## Removal execution (src/commands/rm.rs::execute_rm and helpers)

/-- The per-repository dirty-preflight error message. -/
def dirtyMsg (name : String) : String :=
  name ++ ": worktree has uncommitted changes"

/-- The hint line appended after the dirty-preflight errors. -/
def rmHint : String :=
  "hint: commit or stash changes, then retry — or use `git forest rm --force`"

/-- The per-repository results and error messages produced when the dirty
preflight rejects the removal (`execute_rm` lines 112-137: dirty repos are
`Failed`, clean repos are `Skipped("blocked by dirty repos")`). -/
def dirtyPreflightRepos : List RepoRmPlan → List RepoRmResult × List String
  | [] => ([], [])
  | rp :: rest =>
    let (rs, es) := dirtyPreflightRepos rest
    if rp.hasDirtyFiles then
      ({ name := rp.name
         worktreeRemoved := .failed (dirtyMsg rp.name)
         branchDeleted := .skipped "worktree not removed" } :: rs,
       dirtyMsg rp.name :: es)
    else
      ({ name := rp.name
         worktreeRemoved := .skipped "blocked by dirty repos"
         branchDeleted := .skipped "blocked by dirty repos" } :: rs, es)

/-- `remove_worktree`: returns the outcome, the success flag used to gate
branch deletion (absence counts as success), any error messages pushed, and
the external calls made. -/
def remove_worktree (env : GitEnv) (rp : RepoRmPlan) (force : Bool) :
    RmOutcome × Bool × List String × List Effect :=
  if !rp.worktreeExists then
    (.skipped "worktree already missing", true, [], [])
  else if !rp.sourceExists then
    match env.removeDirAll rp.worktreePath with
    | .ok _ => (.success, true, [], [.fsRemoveDirAll rp.worktreePath])
    | .error e =>
      let msg := rp.name ++ ": source repo missing, failed to remove worktree directory: " ++ e
      (.failed msg, false, [msg], [.fsRemoveDirAll rp.worktreePath])
  else
    let args := "worktree" :: "remove" ::
      ((if force then ["--force"] else []) ++ [rp.worktreePath.render])
    match env.git rp.source args with
    | .ok _ => (.success, true, [], [.gitCall rp.source args])
    | .error e =>
      let msg := rp.name ++ ": git worktree remove failed: " ++ e
      (.failed msg, false, [msg], [.gitCall rp.source args])

/-- `can_safely_force_delete`: after `git branch -d` fails, check
(1) `git merge-base --is-ancestor <branch> <base_branch>`, then
(2) upstream tracking exists and `git rev-list --count <upstream>..<branch>`
trims to `"0"`. -/
def can_safely_force_delete (env : GitEnv) (source : RPath) (branch baseBranch : String) :
    Bool × List Effect :=
  let ancestorArgs := ["merge-base", "--is-ancestor", branch, baseBranch]
  match env.git source ancestorArgs with
  | .ok _ => (true, [.gitCall source ancestorArgs])
  | .error _ =>
    let ferArgs := ["for-each-ref", "--format=%(upstream:short)", "refs/heads/" ++ branch]
    match env.git source ferArgs with
    | .ok upstream =>
      if !upstream.isEmpty then
        let rlArgs := ["rev-list", "--count", upstream ++ ".." ++ branch]
        match env.git source rlArgs with
        | .ok count =>
          if count.trim == "0" then
            (true, [.gitCall source ancestorArgs, .gitCall source ferArgs, .gitCall source rlArgs])
          else
            (false, [.gitCall source ancestorArgs, .gitCall source ferArgs, .gitCall source rlArgs])
        | .error _ =>
          (false, [.gitCall source ancestorArgs, .gitCall source ferArgs, .gitCall source rlArgs])
      else (false, [.gitCall source ancestorArgs, .gitCall source ferArgs])
    | .error _ => (false, [.gitCall source ancestorArgs, .gitCall source ferArgs])

/-- The failure message recorded when a branch is neither safely deletable
nor force-deletable; it embeds the original `git branch -d` rejection text
(`{:?}` on the branch name rendered as surrounding quotes). -/
def notFullyMergedMsg (name branch err : String) : String :=
  name ++ ": branch \"" ++ branch ++ "\" is not fully merged (" ++ (err ++
    (")\n  hint: if the branch was merged (e.g. squash-merge) and the remote " ++
     "branch was deleted, use `git forest rm --force`"))

/-- `delete_branch`: skip unless the branch was created by this forest, the
worktree step succeeded, and the source repository exists; with `force`
delete unconditionally (`-D`); otherwise try `-d` and fall back through
`can_safely_force_delete`. -/
def delete_branch (env : GitEnv) (rp : RepoRmPlan) (force wtSucceeded : Bool) :
    RmOutcome × List String × List Effect :=
  if !rp.branchCreated then
    (.skipped "branch not created by forest", [], [])
  else if !wtSucceeded then
    (.skipped "worktree still exists, cannot delete branch", [], [])
  else if !rp.sourceExists then
    (.skipped "source repo missing", [], [])
  else if force then
    let args := ["branch", "-D", rp.branch]
    match env.git rp.source args with
    | .ok _ => (.success, [], [.gitCall rp.source args])
    | .error e =>
      let msg := rp.name ++ ": git branch -D failed: " ++ e
      (.failed msg, [msg], [.gitCall rp.source args])
  else
    let dArgs := ["branch", "-d", rp.branch]
    match env.git rp.source dArgs with
    | .ok _ => (.success, [], [.gitCall rp.source dArgs])
    | .error originalErr =>
      let fb := can_safely_force_delete env rp.source rp.branch rp.baseBranch
      if fb.1 then
        let args := ["branch", "-D", rp.branch]
        match env.git rp.source args with
        | .ok _ => (.success, [], .gitCall rp.source dArgs :: fb.2 ++ [.gitCall rp.source args])
        | .error e =>
          let msg := rp.name ++ ": git branch -D failed: " ++ e
          (.failed msg, [msg], .gitCall rp.source dArgs :: fb.2 ++ [.gitCall rp.source args])
      else
        let msg := notFullyMergedMsg rp.name rp.branch originalErr
        (.failed msg, [msg], .gitCall rp.source dArgs :: fb.2)

/-- `remove_forest_dir`: nothing to do if absent; with `force` remove
recursively; otherwise remove the meta file then try a non-recursive
directory removal. -/
def remove_forest_dir (env : GitEnv) (forestDir : RPath) (force : Bool) :
    Bool × List String × List Effect :=
  if !env.pathExists forestDir then (true, [], [])
  else if force then
    match env.removeDirAll forestDir with
    | .ok _ => (true, [], [.fsRemoveDirAll forestDir])
    | .error e =>
      (false, ["failed to remove forest directory: " ++ e], [.fsRemoveDirAll forestDir])
  else
    let metaPath := forestDir.joinStr META_FILENAME
    let dirFailMsg := fun (e : String) =>
      "forest directory not removed (not empty): " ++ e ++
        "\n  hint: resolve errors above, then rm the directory manually or re-run with --force"
    if env.pathExists metaPath then
      match env.removeFile metaPath with
      | .error e =>
        (false, ["failed to remove meta file: " ++ e], [.fsRemoveFile metaPath])
      | .ok _ =>
        match env.removeDir forestDir with
        | .ok _ => (true, [], [.fsRemoveFile metaPath, .fsRemoveDir forestDir])
        | .error e =>
          (false, [dirFailMsg e], [.fsRemoveFile metaPath, .fsRemoveDir forestDir])
    else
      match env.removeDir forestDir with
      | .ok _ => (true, [], [.fsRemoveDir forestDir])
      | .error e => (false, [dirFailMsg e], [.fsRemoveDir forestDir])

/-- The per-repository loop of `execute_rm`, including its defensive
containment `assert!` (a violated assertion panics, modelled as `none`). -/
def rmRepoLoop (env : GitEnv) (forestDir : RPath) (force : Bool) :
    List RepoRmPlan → Option (List RepoRmResult × List String × List Effect)
  | [] => some ([], [], [])
  | rp :: rest =>
    if rp.worktreePath.startsWith forestDir then
      let (wtOutcome, wtOk, errs1, eff1) := remove_worktree env rp force
      let (brOutcome, errs2, eff2) := delete_branch env rp force wtOk
      match rmRepoLoop env forestDir force rest with
      | some (rs, errs, effs) =>
        some ({ name := rp.name, worktreeRemoved := wtOutcome, branchDeleted := brOutcome } :: rs,
              errs1 ++ (errs2 ++ errs), eff1 ++ (eff2 ++ effs))
      | none => none
    else none

/-- `execute_rm`: all-or-nothing dirty preflight (unless `force`), then
per-repository best-effort removal, then forest-directory removal only when
no errors accumulated. -/
def execute_rm (env : GitEnv) (plan : RmPlan) (force : Bool) :
    Option (RmResult × List Effect) :=
  if !force && plan.repoPlans.any (·.hasDirtyFiles) then
    let (repos, errs) := dirtyPreflightRepos plan.repoPlans
    some ({ forestName := plan.forestName
            forestDir := plan.forestDir
            dryRun := false
            force := force
            repos := repos
            forestDirRemoved := false
            errors := errs ++ [rmHint] }, [])
  else
    match rmRepoLoop env plan.forestDir force plan.repoPlans with
    | none => none
    | some (repos, errs, effs) =>
      let (dirRemoved, errs2, eff2) :=
        if errs.isEmpty then remove_forest_dir env plan.forestDir force
        else (false, [], [])
      some ({ forestName := plan.forestName
              forestDir := plan.forestDir
              dryRun := false
              force := force
              repos := repos
              forestDirRemoved := dirRemoved
              errors := errs ++ errs2 }, effs ++ eff2)

-- ## Removal dry run (src/commands/rm.rs::plan_to_dry_run_result, pure)

/-- The dry-run projection of one repository when the dirty preflight does
not block. -/
def dryRunRepoNormal (rp : RepoRmPlan) : RepoRmResult :=
  { name := rp.name
    worktreeRemoved :=
      if !rp.worktreeExists then .skipped "worktree already missing" else .success
    branchDeleted :=
      if !rp.branchCreated then .skipped "branch not created by forest" else .success }

/-- `plan_to_dry_run_result`: a pure function of the frozen plan — it makes
no external calls at all. Its dirty-preflight branch is textually the same
construction as `execute_rm`'s (shared here as `dirtyPreflightRepos`). -/
def plan_to_dry_run_result (plan : RmPlan) (force : Bool) : RmResult :=
  if !force && plan.repoPlans.any (·.hasDirtyFiles) then
    let (repos, errs) := dirtyPreflightRepos plan.repoPlans
    { forestName := plan.forestName
      forestDir := plan.forestDir
      dryRun := true
      force := force
      repos := repos
      forestDirRemoved := false
      errors := errs ++ [rmHint] }
  else
    { forestName := plan.forestName
      forestDir := plan.forestDir
      dryRun := true
      force := force
      repos := plan.repoPlans.map dryRunRepoNormal
      forestDirRemoved := true
      errors := [] }

-- ## Name validation (src/paths.rs)

/-- `sanitize_forest_name`: replace every `/` with `-` (Rust
`name.replace('/', "-")`, a character-for-character map). -/
def sanitize_forest_name (name : String) : String :=
  String.mk (name.data.map (fun c => if c = '/' then '-' else c))

/-- `ForestName::new`: reject empty, `.`, `..`, and anything whose sanitized
form is empty; otherwise keep the human form. -/
def ForestName.new (name : String) : Except String String :=
  if name == "" || name == "." || name == ".." then
    .error ("invalid forest name: \"" ++ name ++
      "\"\n  hint: provide a descriptive name like \"java-84/refactor-auth\"")
  else if sanitize_forest_name name == "" then
    .error ("forest name \"" ++ name ++
      "\" sanitizes to empty\n  hint: provide a name with at least one alphanumeric character")
  else .ok name

/-- `RepoName::new`: reject only the empty string. -/
def RepoName.new (name : String) : Except String String :=
  if name == "" then .error "repo name must not be empty" else .ok name

/-- `BranchName::new`: reject empty, `refs/`-prefixed, and
`<remote>/`-prefixed names. -/
def BranchName.new (name : String) (remote : String) : Except String String :=
  if name == "" then .error "branch name must not be empty"
  else if strIsPrefixOf "refs/" name then
    .error ("branch name \"" ++ name ++
      "\" looks like a ref path\n  hint: pass the branch name without the refs/ marker")
  else if strIsPrefixOf (remote ++ "/") name then
    .error ("branch name \"" ++ name ++
      "\" looks like a remote ref\n  hint: pass the branch name without the remote marker")
  else .ok name

/-- `paths::forest_dir`: the forest directory is the worktree base joined
with the sanitized forest name. -/
def forest_dir (worktreeBase : RPath) (name : String) : RPath :=
  worktreeBase.joinStr (sanitize_forest_name name)

-- ## Creation data model (src/commands/new.rs, src/config.rs)

/-- Checkout strategy per repository (`CheckoutKind`). -/
inductive CheckoutKind where
  | existingLocal
  | trackRemote
  | newBranch
deriving DecidableEq, Repr

/-- One template repository after resolution (`config.rs::ResolvedRepo`). -/
structure ResolvedRepo where
  path : RPath
  name : String
  baseBranch : String
  remote : String
deriving DecidableEq, Repr

/-- A resolved template (`config.rs::ResolvedTemplate`). -/
structure ResolvedTemplate where
  worktreeBase : RPath
  baseBranch : String
  featureBranchTemplate : String
  repos : List ResolvedRepo
deriving DecidableEq, Repr

/-- The inputs to forest creation (`new.rs::NewInputs`). -/
structure NewInputs where
  name : String
  mode : ForestMode
  branchOverride : Option String
  repoBranches : List (String × String)
  noFetch : Bool
  dryRun : Bool
deriving DecidableEq, Repr

/-- One repository's creation plan (`new.rs::RepoPlan`). -/
structure RepoPlan where
  name : String
  source : RPath
  dest : RPath
  branch : String
  baseBranch : String
  remote : String
  checkout : CheckoutKind
deriving DecidableEq, Repr

/-- A forest creation plan (`new.rs::ForestPlan`). -/
structure ForestPlan where
  forestName : String
  forestDir : RPath
  mode : ForestMode
  repoPlans : List RepoPlan
deriving DecidableEq, Repr

/-- Per-repository creation result (`new.rs::NewRepoResult`). -/
structure NewRepoResult where
  name : String
  branch : String
  baseBranch : String
  branchCreated : Bool
  checkoutKind : CheckoutKind
  worktreePath : RPath
deriving DecidableEq, Repr

/-- Overall creation result (`new.rs::NewResult`). -/
structure NewResult where
  forestName : String
  forestDir : RPath
  mode : ForestMode
  dryRun : Bool
  repos : List NewRepoResult
deriving DecidableEq, Repr

-- ## Creation planning (src/commands/new.rs::plan_forest and helpers)

/-- `compute_target_branch`: per-repo override, else global override, else
the mode default (feature template substitution or `forest/<name>`). The
literal placeholder in the template is `{name}` (written here with escaped
braces). -/
def compute_target_branch (repoName forestName : String) (mode : ForestMode)
    (featureBranchTemplate : String) (branchOverride : Option String)
    (repoBranches : List (String × String)) : String :=
  match repoBranches.find? (fun p => p.1 == repoName) with
  | some p => p.2
  | none =>
    match branchOverride with
    | some b => b
    | none =>
      match mode with
      | .feature => featureBranchTemplate.replace "\x7bname\x7d" forestName
      | .review => "forest/" ++ forestName

/-- The duplicate-key scan over `--repo-branch` pairs (`HashSet::insert`
returning false on the first repeat). -/
def findDuplicateKey : List String → List (String × String) → Option String
  | _, [] => none
  | seen, (k, _) :: rest =>
    if seen.contains k then some k else findDuplicateKey (k :: seen) rest

/-- The unknown-key scan over `--repo-branch` pairs: first key that names no
template repo. -/
def findUnknownKey (known : List String) : List (String × String) → Option String
  | [] => none
  | (k, _) :: rest => if known.contains k then findUnknownKey known rest else some k

/-- The `--repo-branch` branch-name validation loop: each branch is checked
against the named repo's remote (default `origin` when the repo is unknown,
which the earlier key check has already ruled out). -/
def validateRepoBranchNames (repos : List ResolvedRepo) :
    List (String × String) → Except String Unit
  | [] => .ok ()
  | (repoName, branch) :: rest =>
    let remote :=
      match repos.find? (fun r => r.name == repoName) with
      | some r => r.remote
      | none => "origin"
    match BranchName.new branch remote with
    | .error e => .error e
    | .ok _ => validateRepoBranchNames repos rest

/-- The branch-resolution step of `plan_forest` (new.rs lines 199-223):
local ref → `ExistingLocal`; else remote-tracking ref → `TrackRemote`; else
the remote base branch must exist (actionable error naming
`<remote>/<base_branch>` otherwise) → `NewBranch`. `refEx` answers
`ref_exists` for this repository. -/
def resolveCheckout (refEx : String → Bool) (remote baseBranch branch repoName : String)
    (repoPath : RPath) : Except String CheckoutKind :=
  let localRef := "refs/heads/" ++ branch
  let remoteRef := "refs/remotes/" ++ (remote ++ ("/" ++ branch))
  if refEx localRef then .ok .existingLocal
  else if refEx remoteRef then .ok .trackRemote
  else
    let baseRef := "refs/remotes/" ++ (remote ++ ("/" ++ baseBranch))
    if !refEx baseRef then
      .error ((remote ++ ("/" ++ baseBranch)) ++ (" not found in " ++ (repoName ++
        ("\n  hint: check that base_branch \"" ++ (baseBranch ++
         ("\" exists on remote \"" ++ (remote ++
          ("\", or run `git fetch " ++ (remote ++ ("` in " ++ repoPath.render))))))))))
    else .ok .newBranch

/-- The plan-building loop of `plan_forest`: compute the target branch,
validate it, resolve the checkout kind, and record the destination
`<forest_dir>/<repo_name>`. -/
def buildRepoPlans (env : GitEnv) (inputs : NewInputs) (tmpl : ResolvedTemplate)
    (forestName : String) (fdir : RPath) :
    List ResolvedRepo → Except String (List RepoPlan)
  | [] => .ok []
  | repo :: rest =>
    let branchStr := compute_target_branch repo.name forestName inputs.mode
      tmpl.featureBranchTemplate inputs.branchOverride inputs.repoBranches
    match BranchName.new branchStr repo.remote with
    | .error e => .error e
    | .ok branch =>
      match resolveCheckout (env.refExists repo.path) repo.remote repo.baseBranch branch
          repo.name repo.path with
      | .error e => .error e
      | .ok checkout =>
        match buildRepoPlans env inputs tmpl forestName fdir rest with
        | .error e => .error e
        | .ok plans =>
          .ok ({ name := repo.name
                 source := repo.path
                 dest := fdir.joinStr repo.name
                 branch := branch
                 baseBranch := repo.baseBranch
                 remote := repo.remote
                 checkout := checkout } :: plans)

/-- The purely input-driven validations of `plan_forest` that run before any
filesystem access: forest-name validity, non-empty template, duplicate and
unknown `--repo-branch` keys. Returns the validated forest name. -/
def plan_forest_validate (inputs : NewInputs) (tmpl : ResolvedTemplate) :
    Except String String :=
  match ForestName.new inputs.name with
  | .error e => .error e
  | .ok forestName =>
    if tmpl.repos.isEmpty then
      .error "no repos configured\n  hint: run `git forest init --repo <path>` to add repos"
    else
      match findDuplicateKey [] inputs.repoBranches with
      | some k =>
        .error ("duplicate repo-branch for: " ++ (k ++ "\n  hint: specify each repo at most once"))
      | none =>
        match findUnknownKey (tmpl.repos.map (·.name)) inputs.repoBranches with
        | some k =>
          .error ("unknown repo: " ++ (k ++ ("\n  hint: known repos: " ++
            String.intercalate ", " (tmpl.repos.map (·.name)))))
        | none => .ok forestName

/-- The global `--branch` override validation of `plan_forest`: the override
is checked against the first repository's remote as representative. -/
def validateGlobalBranch (inputs : NewInputs) (tmpl : ResolvedTemplate) :
    Except String Unit :=
  match inputs.branchOverride with
  | some b =>
    match tmpl.repos.head? with
    | some repo =>
      match BranchName.new b repo.remote with
      | .error e => .error e
      | .ok _ => .ok ()
    | none => .ok ()
  | none => .ok ()

/-- The read-only checks and plan construction of `plan_forest` that follow
the worktree-base creation step: forest-directory collision, meta-scan name
collision, source-repository existence, branch-name validation, and the
plan-building loop. -/
def plan_forest_checks (env : GitEnv) (inputs : NewInputs) (tmpl : ResolvedTemplate)
    (forestName : String) (fdir : RPath) : Except String ForestPlan :=
  if env.pathExists fdir then
    .error ("forest directory already exists: " ++ (fdir.render ++
      "\n  hint: choose a different name, or remove the existing forest with `git forest rm`"))
  else
    match env.findForest tmpl.worktreeBase forestName with
    | .error e => .error e
    | .ok (some pr) =>
      .error ("forest name \"" ++ (forestName ++ ("\" collides with existing forest \"" ++
        (pr.2 ++ ("\" at " ++ (pr.1.render ++ "\n  hint: choose a different name"))))))
    | .ok none =>
      match tmpl.repos.find? (fun r => !env.isDir r.path) with
      | some r =>
        .error ("source repo not found: " ++ (r.path.render ++
          "\n  hint: check that the path exists, or update config with `git forest init --force`"))
      | none =>
        match validateGlobalBranch inputs tmpl with
        | .error e => .error e
        | .ok _ =>
          match validateRepoBranchNames tmpl.repos inputs.repoBranches with
          | .error e => .error e
          | .ok _ =>
            match buildRepoPlans env inputs tmpl forestName fdir tmpl.repos with
            | .error e => .error e
            | .ok plans =>
              .ok { forestName := forestName
                    forestDir := fdir
                    mode := inputs.mode
                    repoPlans := plans }

/-- `plan_forest`: the input validations, then — between them and all later
checks — the one mutating step of the planner: `create_dir_all` on the
worktree base when it does not exist (new.rs lines 134-137). -/
def plan_forest (env : GitEnv) (inputs : NewInputs) (tmpl : ResolvedTemplate) :
    Except String ForestPlan × List Effect :=
  match plan_forest_validate inputs tmpl with
  | .error e => (.error e, [])
  | .ok forestName =>
    let fdir := forest_dir tmpl.worktreeBase forestName
    if env.pathExists tmpl.worktreeBase then
      (plan_forest_checks env inputs tmpl forestName fdir, [])
    else
      match env.createDirAll tmpl.worktreeBase with
      | .error e => (.error e, [Effect.fsCreateDirAll tmpl.worktreeBase])
      | .ok _ =>
        (plan_forest_checks env inputs tmpl forestName fdir,
         [Effect.fsCreateDirAll tmpl.worktreeBase])

-- ## Creation execution (src/commands/new.rs::execute_plan and helpers)

/-- `branch_created`: true exactly for `NewBranch` (new.rs lines 246-252). -/
def branch_created : CheckoutKind → Bool
  | .existingLocal => false
  | .trackRemote => false
  | .newBranch => true

/-- `plan_to_result`: the projection of a plan into a `NewResult`, shared by
successful execution and dry run. -/
def plan_to_result (plan : ForestPlan) (dryRun : Bool) : NewResult :=
  { forestName := plan.forestName
    forestDir := plan.forestDir
    mode := plan.mode
    dryRun := dryRun
    repos := plan.repoPlans.map (fun rp =>
      { name := rp.name
        branch := rp.branch
        baseBranch := rp.baseBranch
        branchCreated := branch_created rp.checkout
        checkoutKind := rp.checkout
        worktreePath := rp.dest }) }

/-- The `git worktree add` argument shape selected by the checkout kind
(three distinct shapes; `NewBranch` passes `--no-track`). -/
def worktreeAddArgs (rp : RepoPlan) : List String :=
  match rp.checkout with
  | .existingLocal => ["worktree", "add", rp.dest.render, rp.branch]
  | .trackRemote =>
    ["worktree", "add", rp.dest.render, "-b", rp.branch, rp.remote ++ ("/" ++ rp.branch)]
  | .newBranch =>
    ["worktree", "add", "-b", rp.branch, "--no-track", rp.dest.render,
     rp.remote ++ ("/" ++ rp.baseBranch)]

/-- The `RepoMeta` appended to the forest's meta file after a repository's
worktree is created (new.rs lines 337-343). -/
def repoMetaOf (rp : RepoPlan) : RepoMeta :=
  { name := rp.name
    source := rp.source
    branch := rp.branch
    baseBranch := rp.baseBranch
    branchCreated := branch_created rp.checkout }

/-- The effects of the rollback loop: one forced `git worktree remove` per
previously created worktree, each guarded by the containment `assert!`
(violation modelled as `none`). -/
def rollbackEffects (forestDir : RPath) : List (RPath × RPath) → Option (List Effect)
  | [] => some []
  | (source, dest) :: rest =>
    if dest.startsWith forestDir then
      match rollbackEffects forestDir rest with
      | some effs =>
        some (.gitCall source ["worktree", "remove", "--force", dest.render] :: effs)
      | none => none
    else none

/-- The per-repository loop of `execute_plan`: create each worktree in plan
order, appending to the meta file after each success; on a worktree-creation
failure, roll back every created worktree, delete the forest directory
(both best-effort), and return the original error. A meta-write failure
propagates without rollback (the `?` on `meta.write`). -/
def newRepoLoop (env : GitEnv) (forestDir metaPath : RPath) :
    List RepoPlan → List (RPath × RPath) → List RepoMeta →
    Option (Except String (List RepoMeta) × List Effect)
  | [], _, metas => some (.ok metas, [])
  | rp :: rest, created, metas =>
    let args := worktreeAddArgs rp
    match env.git rp.source args with
    | .ok _ =>
      match env.writeFile metaPath with
      | .ok _ =>
        match newRepoLoop env forestDir metaPath rest (created ++ [(rp.source, rp.dest)])
            (metas ++ [repoMetaOf rp]) with
        | some (res, effs) =>
          some (res, .gitCall rp.source args :: .fsWriteFile metaPath :: effs)
        | none => none
      | .error e =>
        some (.error e, [.gitCall rp.source args, .fsWriteFile metaPath])
    | .error e =>
      match rollbackEffects forestDir created with
      | some rbEffs =>
        some (.error e, .gitCall rp.source args :: (rbEffs ++ [.fsRemoveDirAll forestDir]))
      | none => none

/-- `execute_plan`: create the forest directory with the collision-detecting
`create_dir`, write the initial empty meta, then run the per-repository
loop. On success it returns the projected result together with the final
persisted meta entries. -/
def execute_plan (env : GitEnv) (plan : ForestPlan) :
    Option (Except String (NewResult × List RepoMeta) × List Effect) :=
  match env.createDir plan.forestDir with
  | .error e => some (.error e, [.fsCreateDir plan.forestDir])
  | .ok _ =>
    let metaPath := plan.forestDir.joinStr META_FILENAME
    match env.writeFile metaPath with
    | .error e => some (.error e, [.fsCreateDir plan.forestDir, .fsWriteFile metaPath])
    | .ok _ =>
      match newRepoLoop env plan.forestDir metaPath plan.repoPlans [] [] with
      | some (.ok metas, effs) =>
        some (.ok (plan_to_result plan false, metas),
              .fsCreateDir plan.forestDir :: .fsWriteFile metaPath :: effs)
      | some (.error e, effs) =>
        some (.error e, .fsCreateDir plan.forestDir :: .fsWriteFile metaPath :: effs)
      | none => none

-- ## Post-state interpretation of an effect trace

/-- Interpret one effect against an existence predicate over paths, using
the environment's oracles to decide whether the call succeeded. Pure git
calls leave the filesystem abstraction unchanged (the worktree directories
git itself creates live under the forest directory and are superseded by
the recursive removals the claims are about). -/
def applyEffect (env : GitEnv) (fs : RPath → Bool) : Effect → (RPath → Bool)
  | .fsRemoveDirAll p =>
    if (env.removeDirAll p).isOk then
      fun q => if q.startsWith p then false else fs q
    else fs
  | .fsRemoveDir p =>
    if (env.removeDir p).isOk then fun q => if q == p then false else fs q else fs
  | .fsRemoveFile p =>
    if (env.removeFile p).isOk then fun q => if q == p then false else fs q else fs
  | .fsCreateDir p =>
    if (env.createDir p).isOk then fun q => if q == p then true else fs q else fs
  | .fsCreateDirAll p =>
    if (env.createDirAll p).isOk then fun q => if q == p then true else fs q else fs
  | .fsWriteFile p =>
    if (env.writeFile p).isOk then fun q => if q == p then true else fs q else fs
  | .gitCall _ _ => fs

/-- Fold a whole effect trace over an initial existence predicate. -/
def runEffects (env : GitEnv) (fs : RPath → Bool) : List Effect → (RPath → Bool)
  | [] => fs
  | e :: rest => runEffects env (applyEffect env fs e) rest

-- ## Reset data model and orchestrator (src/commands/reset.rs)

/-- One repository recorded in a reset plan (`reset.rs::ForestRepoInfo`). -/
structure ForestRepoInfo where
  source : RPath
  worktreeDir : RPath
deriving DecidableEq, Repr

/-- One forest recorded in a reset plan (`reset.rs::ForestInfo`). -/
structure ForestInfo where
  name : String
  path : RPath
  repos : List ForestRepoInfo
deriving DecidableEq, Repr

/-- A reset plan (`reset.rs::ResetPlan`), the read-only product of
`plan_reset` (config/state discovery and forest scanning are modelled at
this interface). -/
structure ResetPlan where
  configPath : RPath
  configExists : Bool
  statePath : RPath
  stateExists : Bool
  configOnly : Bool
  forests : List ForestInfo
  warnings : List String
deriving DecidableEq, Repr

/-- File deletion entry of a reset result (`reset.rs::FileResetEntry`). -/
structure FileResetEntry where
  path : RPath
  existed : Bool
  deleted : Bool
deriving DecidableEq, Repr

/-- Forest teardown entry of a reset result (`reset.rs::ForestResetEntry`). -/
structure ForestResetEntry where
  name : String
  path : RPath
  removed : Bool
deriving DecidableEq, Repr

/-- Overall reset result (`reset.rs::ResetResult`). -/
structure ResetResult where
  dryRun : Bool
  confirmRequired : Bool
  configOnly : Bool
  configFile : FileResetEntry
  stateFile : FileResetEntry
  forests : List ForestResetEntry
  warnings : List String
  errors : List String
deriving DecidableEq, Repr

/-- The forest-info construction inside `plan_reset` (reset.rs lines 82-96):
the forest path is the base joined with the sanitized name, and each
repository's worktree directory is the forest path joined with its name. -/
def forestInfoOfMeta (base : RPath) (meta : ForestMeta) : ForestInfo :=
  let forestPath := base.joinStr (sanitize_forest_name meta.name)
  { name := meta.name
    path := forestPath
    repos := meta.repos.map (fun r =>
      { source := r.source, worktreeDir := forestPath.joinStr r.name }) }

/-- `plan_to_dry_run` (reset.rs): the preview result; forest `removed`
reflects a read-only `path.exists()` probe. -/
def plan_to_dry_run (env : GitEnv) (plan : ResetPlan) : ResetResult :=
  { dryRun := true
    confirmRequired := false
    configOnly := plan.configOnly
    configFile := { path := plan.configPath, existed := plan.configExists
                    deleted := plan.configExists }
    stateFile := { path := plan.statePath, existed := plan.stateExists
                   deleted := plan.stateExists }
    forests := plan.forests.map (fun f =>
      { name := f.name, path := f.path, removed := env.pathExists f.path })
    warnings := plan.warnings
    errors := [] }

/-- `plan_to_confirm_required`: the same preview, reflagged. -/
def plan_to_confirm_required (env : GitEnv) (plan : ResetPlan) : ResetResult :=
  { plan_to_dry_run env plan with dryRun := false, confirmRequired := true }

/-- The worktree-unregistration loop of `execute_reset`, with its defensive
containment `assert!` (violation modelled as `none`); git failures are
recorded but do not block. -/
def resetRepoUnregister (env : GitEnv) (forestPath : RPath) :
    List ForestRepoInfo → Option (List String × List Effect)
  | [] => some ([], [])
  | repo :: rest =>
    if repo.worktreeDir.startsWith forestPath then
      let args := ["worktree", "remove", "--force", repo.worktreeDir.render]
      let (errs1, eff1) :=
        match env.git repo.source args with
        | .ok _ => (([] : List String), [Effect.gitCall repo.source args])
        | .error e =>
          (["warning: git worktree remove failed for " ++
              (repo.worktreeDir.render ++ (": " ++ e))],
           [Effect.gitCall repo.source args])
      match resetRepoUnregister env forestPath rest with
      | some (errs, effs) => some (errs1 ++ errs, eff1 ++ effs)
      | none => none
    else none

/-- The per-forest loop of `execute_reset`: unregister worktrees, then
remove the forest directory recursively if it exists. -/
def resetForestLoop (env : GitEnv) :
    List ForestInfo → Option (List ForestResetEntry × List String × List Effect)
  | [] => some ([], [], [])
  | forest :: rest =>
    match resetRepoUnregister env forest.path forest.repos with
    | none => none
    | some (errs1, eff1) =>
      let (entry, errs2, eff2) :=
        if !env.pathExists forest.path then
          (({ name := forest.name, path := forest.path, removed := false } : ForestResetEntry),
           ([] : List String), ([] : List Effect))
        else
          match env.removeDirAll forest.path with
          | .ok _ =>
            ({ name := forest.name, path := forest.path, removed := true }, [],
             [Effect.fsRemoveDirAll forest.path])
          | .error e =>
            ({ name := forest.name, path := forest.path, removed := false },
             ["failed to remove forest " ++ (forest.name ++ (": " ++ e))],
             [Effect.fsRemoveDirAll forest.path])
      match resetForestLoop env rest with
      | none => none
      | some (entries, errs, effs) =>
        some (entry :: entries, errs1 ++ (errs2 ++ errs), eff1 ++ (eff2 ++ effs))

/-- `delete_file` (reset.rs): remove a file, recording a failure message. -/
def delete_file (env : GitEnv) (p : RPath) : Bool × List String × List Effect :=
  match env.removeFile p with
  | .ok _ => (true, [], [.fsRemoveFile p])
  | .error e => (false, ["failed to delete " ++ (p.render ++ (": " ++ e))], [.fsRemoveFile p])

/-- `execute_reset`: tear down every forest first (while the config still
exists), then delete the config and state files. -/
def execute_reset (env : GitEnv) (plan : ResetPlan) :
    Option (ResetResult × List Effect) :=
  match resetForestLoop env plan.forests with
  | none => none
  | some (entries, errs, effs) =>
    let (cDel, cErrs, cEffs) :=
      if plan.configExists then delete_file env plan.configPath
      else (false, ([] : List String), ([] : List Effect))
    let (sDel, sErrs, sEffs) :=
      if plan.stateExists then delete_file env plan.statePath
      else (false, ([] : List String), ([] : List Effect))
    some ({ dryRun := false
            confirmRequired := false
            configOnly := plan.configOnly
            configFile := { path := plan.configPath, existed := plan.configExists
                            deleted := cDel }
            stateFile := { path := plan.statePath, existed := plan.stateExists
                           deleted := sDel }
            forests := entries
            warnings := plan.warnings
            errors := errs ++ (cErrs ++ sErrs) }, effs ++ (cEffs ++ sEffs))

/-- `cmd_reset` after planning: the three-mode gate. `dry_run` returns the
preview; without `confirm` the preview is returned reflagged as requiring
confirmation; only with `confirm` does `execute_reset` run. -/
def cmd_reset (env : GitEnv) (plan : ResetPlan) (confirm dryRun : Bool) :
    Option (ResetResult × List Effect) :=
  if dryRun then some (plan_to_dry_run env plan, [])
  else if !confirm then some (plan_to_confirm_required env plan, [])
  else execute_reset env plan

-- ## Shared lemmas

theorem charsContain_append_right (a b n : List Char) (h : charsContain n b = true) :
    charsContain n (a ++ b) = true := by
  induction a with
  | nil => simpa using h
  | cons c cs ih => simp [charsContain, ih]

theorem strContains_append_right (a b n : String) (h : strContains b n = true) :
    strContains (a ++ b) n = true := by
  cases a with
  | mk da =>
    cases b with
    | mk db =>
      cases n with
      | mk dn =>
        show charsContain dn (da ++ db) = true
        exact charsContain_append_right da db dn h

theorem strContains_append_left (n b : String) : strContains (n ++ b) n = true := by
  cases n with
  | mk dn =>
    cases b with
    | mk db => exact charsContain_self_append dn db

theorem compsLE_append_self (l x : List String) : compsLE l (l ++ x) = true := by
  induction l with
  | nil => rfl
  | cons a as ih => simp [compsLE, ih]

theorem joinStr_startsWith (p : RPath) (s : String) (h : strHasRoot s = false) :
    (p.joinStr s).startsWith p = true := by
  simp [RPath.joinStr, h, RPath.startsWith, compsLE_append_self]

-- ## C10 — ForestName accepts every nonempty non-dot name

theorem sanitize_forest_name_length (s : String) :
    (sanitize_forest_name s).length = s.length := by
  cases s with
  | mk d =>
    show (d.map fun c => if c = '/' then '-' else c).length = d.length
    exact List.length_map d _

theorem sanitize_forest_name_eq_empty_iff (s : String) :
    sanitize_forest_name s = "" ↔ s = "" := by
  constructor
  · intro h
    have hdata : s.data.map (fun c => if c = '/' then '-' else c) = [] :=
      congrArg String.data h
    have : s.data = [] := List.map_eq_nil_iff.mp hdata
    cases s with
    | mk d => simp_all
  · intro h
    subst h
    rfl

/-- C10: because sanitization is a character-for-character map (`/` ↦ `-`)
that preserves length, the "sanitizes to empty" rejection branch of
`ForestName::new` is unreachable for nonempty input: every string other
than `""`, `"."` and `".."` is accepted, including names with no
alphanumeric character such as `"////"`. -/
theorem forestName_new_accepts_nonempty :
    (∀ s : String, (sanitize_forest_name s).length = s.length) ∧
    (∀ s : String, s ≠ "" → s ≠ "." → s ≠ ".." → ForestName.new s = .ok s) := by
  refine ⟨sanitize_forest_name_length, ?_⟩
  intro s h1 h2 h3
  have hs : ¬(sanitize_forest_name s = "") := fun h =>
    h1 ((sanitize_forest_name_eq_empty_iff s).mp h)
  simp [ForestName.new, h1, h2, h3, hs]

/-- C10 witness: the all-slashes name `"////"` is accepted. -/
theorem forestName_new_accepts_nonempty_witness :
    (("////" : String) ≠ "" ∧ ("////" : String) ≠ "." ∧ ("////" : String) ≠ "..") ∧
    ForestName.new "////" = .ok "////" :=
  ⟨⟨by decide, by decide, by decide⟩,
   forestName_new_accepts_nonempty.2 "////" (by decide) (by decide) (by decide)⟩

-- ## C8 — the reset three-mode gate

/-- C8: with `dry_run` the preview of the computed plan is returned and no
external call is made; without `dry_run` and without `confirm` the same
preview is returned reflagged with `confirm_required = true`, still with no
external call; only with `confirm` (and not `dry_run`) does `execute_reset`
(forest teardown, then config/state deletion) run. -/
theorem cmd_reset_gate (env : GitEnv) (plan : ResetPlan) (confirm : Bool) :
    cmd_reset env plan confirm true = some (plan_to_dry_run env plan, []) ∧
    cmd_reset env plan false false =
      some ({ plan_to_dry_run env plan with dryRun := false, confirmRequired := true }, []) ∧
    cmd_reset env plan true false = execute_reset env plan := by
  refine ⟨?_, ?_, ?_⟩ <;> simp [cmd_reset, plan_to_confirm_required]

-- ## C5 — CheckoutKind resolution order

/-- C5: `plan_forest` resolves each repository's checkout kind in order:
an existing local ref gives `ExistingLocal`; else an existing
remote-tracking ref gives `TrackRemote`; else the remote base branch is
required — if missing, planning fails with a message naming
`<remote>/<base_branch>`, and if present the kind is `NewBranch`. -/
theorem resolveCheckout_order (refEx : String → Bool)
    (remote baseBranch branch repoName : String) (repoPath : RPath) :
    (refEx ("refs/heads/" ++ branch) = true →
      resolveCheckout refEx remote baseBranch branch repoName repoPath = .ok .existingLocal) ∧
    (refEx ("refs/heads/" ++ branch) = false →
     refEx ("refs/remotes/" ++ (remote ++ ("/" ++ branch))) = true →
      resolveCheckout refEx remote baseBranch branch repoName repoPath = .ok .trackRemote) ∧
    (refEx ("refs/heads/" ++ branch) = false →
     refEx ("refs/remotes/" ++ (remote ++ ("/" ++ branch))) = false →
     refEx ("refs/remotes/" ++ (remote ++ ("/" ++ baseBranch))) = true →
      resolveCheckout refEx remote baseBranch branch repoName repoPath = .ok .newBranch) ∧
    (refEx ("refs/heads/" ++ branch) = false →
     refEx ("refs/remotes/" ++ (remote ++ ("/" ++ branch))) = false →
     refEx ("refs/remotes/" ++ (remote ++ ("/" ++ baseBranch))) = false →
      ∃ e, resolveCheckout refEx remote baseBranch branch repoName repoPath = .error e ∧
        strContains e (remote ++ ("/" ++ baseBranch)) = true) := by
  refine ⟨?_, ?_, ?_, ?_⟩
  · intro h1
    simp [resolveCheckout, h1]
  · intro h1 h2
    simp [resolveCheckout, h1, h2]
  · intro h1 h2 h3
    simp [resolveCheckout, h1, h2, h3]
  · intro h1 h2 h3
    have key : resolveCheckout refEx remote baseBranch branch repoName repoPath =
        .error ((remote ++ ("/" ++ baseBranch)) ++ (" not found in " ++ (repoName ++
          ("\n  hint: check that base_branch \"" ++ (baseBranch ++
           ("\" exists on remote \"" ++ (remote ++
            ("\", or run `git fetch " ++ (remote ++ ("` in " ++ repoPath.render)))))))))) := by
      simp [resolveCheckout, h1, h2, h3]
    exact ⟨_, key, strContains_append_left _ _⟩

/-- C5 witness: a concrete ref oracle exercising the local-branch arm. -/
theorem resolveCheckout_order_witness :
    ((fun r => r == "refs/heads/feat") "refs/heads/feat") = true ∧
    resolveCheckout (fun r => r == "refs/heads/feat") "origin" "main" "feat" "api"
        { absolute := true, components := ["src", "api"] } = .ok .existingLocal :=
  ⟨by decide,
   (resolveCheckout_order (fun r => r == "refs/heads/feat") "origin" "main" "feat" "api"
      { absolute := true, components := ["src", "api"] }).1 (by decide)⟩

-- ## C4 — branch_created gates branch deletion

/-- C4: the persisted `branch_created` flag (via `repoMetaOf`, the
constructor `execute_plan` appends to the meta file) is true exactly for
`CheckoutKind::NewBranch`; and during removal, for every input either the
three gates hold (`branch_created`, worktree step succeeded, source repo
exists) or `delete_branch` returns `Skipped` having made no external call
at all — so the branch is only ever touched when all three gates hold. -/
theorem branch_created_gates_deletion :
    (∀ ck : CheckoutKind, branch_created ck = true ↔ ck = .newBranch) ∧
    (∀ rp : RepoPlan, (repoMetaOf rp).branchCreated = true ↔ rp.checkout = .newBranch) ∧
    (∀ (env : GitEnv) (rp : RepoRmPlan) (force wtOk : Bool),
      (rp.branchCreated = true ∧ wtOk = true ∧ rp.sourceExists = true) ∨
      ((∃ reason, (delete_branch env rp force wtOk).1 = .skipped reason) ∧
       (delete_branch env rp force wtOk).2.2 = [])) := by
  refine ⟨?_, ?_, ?_⟩
  · intro ck
    cases ck <;> simp [branch_created]
  · intro rp
    cases h : rp.checkout <;> simp [repoMetaOf, branch_created, h]
  · intro env rp force wtOk
    cases hb : rp.branchCreated with
    | false =>
      exact Or.inr ⟨⟨"branch not created by forest", by simp [delete_branch, hb]⟩,
        by simp [delete_branch, hb]⟩
    | true =>
      cases hw : wtOk with
      | false =>
        exact Or.inr ⟨⟨"worktree still exists, cannot delete branch",
          by simp [delete_branch, hb, hw]⟩, by simp [delete_branch, hb, hw]⟩
      | true =>
        cases hs : rp.sourceExists with
        | false =>
          exact Or.inr ⟨⟨"source repo missing", by simp [delete_branch, hb, hw, hs]⟩,
            by simp [delete_branch, hb, hw, hs]⟩
        | true => exact Or.inl ⟨rfl, rfl, rfl⟩

-- ## C1 — dirty preflight is all-or-nothing

theorem dirtyPreflightRepos_fst (l : List RepoRmPlan) :
    (dirtyPreflightRepos l).1 = l.map (fun rp =>
      if rp.hasDirtyFiles then
        { name := rp.name
          worktreeRemoved := .failed (dirtyMsg rp.name)
          branchDeleted := .skipped "worktree not removed" }
      else
        { name := rp.name
          worktreeRemoved := .skipped "blocked by dirty repos"
          branchDeleted := .skipped "blocked by dirty repos" }) := by
  induction l with
  | nil => rfl
  | cons rp rest ih =>
    by_cases h : rp.hasDirtyFiles = true
    · simp [dirtyPreflightRepos, h, ih]
    · simp at h
      simp [dirtyPreflightRepos, h, ih]

theorem dirtyPreflightRepos_snd (l : List RepoRmPlan) :
    (dirtyPreflightRepos l).2 =
      (l.filter (·.hasDirtyFiles)).map (fun rp => dirtyMsg rp.name) := by
  induction l with
  | nil => rfl
  | cons rp rest ih =>
    by_cases h : rp.hasDirtyFiles = true
    · simp [dirtyPreflightRepos, h, ih, List.filter]
    · simp at h
      simp [dirtyPreflightRepos, h, ih, List.filter]

/-- C1: without `force`, if any repository in the plan is dirty, `execute_rm`
makes no external call whatsoever (no worktree removal, no branch deletion,
no forest-directory removal, metadata untouched), returns
`forest_dir_removed = false`, reports every dirty repository as `Failed` and
every clean one as `Skipped`, and its error list is exactly the dirty
repositories' messages followed by the hint line. -/
theorem execute_rm_dirty_preflight (env : GitEnv) (plan : RmPlan)
    (h : ∃ rp ∈ plan.repoPlans, rp.hasDirtyFiles = true) :
    execute_rm env plan false = some (
      { forestName := plan.forestName
        forestDir := plan.forestDir
        dryRun := false
        force := false
        repos := plan.repoPlans.map (fun rp =>
          if rp.hasDirtyFiles then
            { name := rp.name
              worktreeRemoved := .failed (dirtyMsg rp.name)
              branchDeleted := .skipped "worktree not removed" }
          else
            { name := rp.name
              worktreeRemoved := .skipped "blocked by dirty repos"
              branchDeleted := .skipped "blocked by dirty repos" })
        forestDirRemoved := false
        errors := (plan.repoPlans.filter (·.hasDirtyFiles)).map (fun rp => dirtyMsg rp.name)
          ++ [rmHint] }, []) := by
  have hany : plan.repoPlans.any (·.hasDirtyFiles) = true := by
    rcases h with ⟨rp, hmem, hd⟩
    exact List.any_eq_true.mpr ⟨rp, hmem, hd⟩
  have hpair : dirtyPreflightRepos plan.repoPlans =
      (plan.repoPlans.map (fun rp =>
        if rp.hasDirtyFiles then
          { name := rp.name
            worktreeRemoved := .failed (dirtyMsg rp.name)
            branchDeleted := .skipped "worktree not removed" }
        else
          { name := rp.name
            worktreeRemoved := .skipped "blocked by dirty repos"
            branchDeleted := .skipped "blocked by dirty repos" }),
       (plan.repoPlans.filter (·.hasDirtyFiles)).map (fun rp => dirtyMsg rp.name)) := by
    rw [Prod.ext_iff]
    exact ⟨dirtyPreflightRepos_fst _, dirtyPreflightRepos_snd _⟩
  simp [execute_rm, hany, hpair]

/-- An environment whose every oracle reports success (used by witnesses and
counterexamples). -/
def envAllOk : GitEnv :=
  { git := fun _ _ => .ok ""
    refExists := fun _ _ => true
    pathExists := fun _ => true
    isDir := fun _ => true
    removeDirAll := fun _ => .ok ()
    removeFile := fun _ => .ok ()
    removeDir := fun _ => .ok ()
    createDir := fun _ => .ok ()
    createDirAll := fun _ => .ok ()
    writeFile := fun _ => .ok ()
    findForest := fun _ _ => .ok none }

/-- A two-repository removal plan with one dirty and one clean repository. -/
def rmPlanDirty : RmPlan :=
  { forestName := "f"
    forestDir := { absolute := true, components := ["w", "f"] }
    repoPlans :=
      [{ name := "api"
         worktreePath := { absolute := true, components := ["w", "f", "api"] }
         source := { absolute := true, components := ["s", "api"] }
         branch := "feat"
         baseBranch := "main"
         branchCreated := true
         worktreeExists := true
         sourceExists := true
         hasDirtyFiles := true },
       { name := "web"
         worktreePath := { absolute := true, components := ["w", "f", "web"] }
         source := { absolute := true, components := ["s", "web"] }
         branch := "feat"
         baseBranch := "main"
         branchCreated := true
         worktreeExists := true
         sourceExists := true
         hasDirtyFiles := false }] }

/-- C1 witness: on a concrete plan with repos `{api: dirty, web: clean}`,
non-forced removal performs no call, fails `api`, skips `web`, and keeps the
forest directory. -/
theorem execute_rm_dirty_preflight_witness :
    (∃ rp ∈ rmPlanDirty.repoPlans, rp.hasDirtyFiles = true) ∧
    execute_rm envAllOk rmPlanDirty false = some (
      { forestName := rmPlanDirty.forestName
        forestDir := rmPlanDirty.forestDir
        dryRun := false
        force := false
        repos := rmPlanDirty.repoPlans.map (fun rp =>
          if rp.hasDirtyFiles then
            { name := rp.name
              worktreeRemoved := .failed (dirtyMsg rp.name)
              branchDeleted := .skipped "worktree not removed" }
          else
            { name := rp.name
              worktreeRemoved := .skipped "blocked by dirty repos"
              branchDeleted := .skipped "blocked by dirty repos" })
        forestDirRemoved := false
        errors := (rmPlanDirty.repoPlans.filter (·.hasDirtyFiles)).map
            (fun rp => dirtyMsg rp.name) ++ [rmHint] }, []) :=
  ⟨by decide, execute_rm_dirty_preflight envAllOk rmPlanDirty (by decide)⟩


-- ## C3 — branch-deletion safety fallbacks

theorem csfd_effects_shape (env : GitEnv) (source : RPath) (branch baseBranch : String) :
    ∀ x ∈ (can_safely_force_delete env source branch baseBranch).2,
      ∃ a, x = Effect.gitCall source a ∧
        (a.head? = some "merge-base" ∨ a.head? = some "for-each-ref" ∨
         a.head? = some "rev-list") := by
  intro x hx
  cases h1 : env.git source ["merge-base", "--is-ancestor", branch, baseBranch] with
  | ok s =>
    simp [can_safely_force_delete, h1] at hx
    exact ⟨_, hx, Or.inl rfl⟩
  | error e1 =>
    cases h2 : env.git source
        ["for-each-ref", "--format=%(upstream:short)", "refs/heads/" ++ branch] with
    | ok u =>
      cases hu : u.isEmpty with
      | true =>
        simp [can_safely_force_delete, h1, h2, hu] at hx
        rcases hx with hx | hx
        · exact ⟨_, hx, Or.inl rfl⟩
        · exact ⟨_, hx, Or.inr (Or.inl rfl)⟩
      | false =>
        cases h3 : env.git source ["rev-list", "--count", u ++ ".." ++ branch] with
        | ok c =>
          by_cases ht : c.trim = "0"
          · simp [can_safely_force_delete, h1, h2, hu, h3, ht] at hx
            rcases hx with hx | hx | hx
            · exact ⟨_, hx, Or.inl rfl⟩
            · exact ⟨_, hx, Or.inr (Or.inl rfl)⟩
            · exact ⟨_, hx, Or.inr (Or.inr rfl)⟩
          · simp [can_safely_force_delete, h1, h2, hu, h3, ht] at hx
            rcases hx with hx | hx | hx
            · exact ⟨_, hx, Or.inl rfl⟩
            · exact ⟨_, hx, Or.inr (Or.inl rfl)⟩
            · exact ⟨_, hx, Or.inr (Or.inr rfl)⟩
        | error e3 =>
          simp [can_safely_force_delete, h1, h2, hu, h3] at hx
          rcases hx with hx | hx | hx
          · exact ⟨_, hx, Or.inl rfl⟩
          · exact ⟨_, hx, Or.inr (Or.inl rfl)⟩
          · exact ⟨_, hx, Or.inr (Or.inr rfl)⟩
    | error e2 =>
      simp [can_safely_force_delete, h1, h2] at hx
      rcases hx with hx | hx
      · exact ⟨_, hx, Or.inl rfl⟩
      · exact ⟨_, hx, Or.inr (Or.inl rfl)⟩

theorem csfd_spec (env : GitEnv) (source : RPath) (branch baseBranch : String) :
    (can_safely_force_delete env source branch baseBranch).1 = true ↔
      ((env.git source ["merge-base", "--is-ancestor", branch, baseBranch]).isOk = true ∨
       (∃ u, env.git source
            ["for-each-ref", "--format=%(upstream:short)", "refs/heads/" ++ branch] = .ok u ∧
          u.isEmpty = false ∧
          ∃ c, env.git source ["rev-list", "--count", u ++ ".." ++ branch] = .ok c ∧
            c.trim = "0")) := by
  cases h1 : env.git source ["merge-base", "--is-ancestor", branch, baseBranch] with
  | ok s => simp [can_safely_force_delete, h1, Except.isOk, Except.toBool]
  | error e1 =>
    cases h2 : env.git source
        ["for-each-ref", "--format=%(upstream:short)", "refs/heads/" ++ branch] with
    | ok u =>
      cases hu : u.isEmpty with
      | true => simp [can_safely_force_delete, h1, h2, hu, Except.isOk, Except.toBool]
      | false =>
        cases h3 : env.git source ["rev-list", "--count", u ++ ".." ++ branch] with
        | ok c =>
          by_cases ht : c.trim = "0"
          · simp [can_safely_force_delete, h1, h2, hu, h3, ht, Except.isOk, Except.toBool]
          · simp [can_safely_force_delete, h1, h2, hu, h3, ht, Except.isOk, Except.toBool]
        | error e3 => simp [can_safely_force_delete, h1, h2, hu, h3, Except.isOk, Except.toBool]
    | error e2 => simp [can_safely_force_delete, h1, h2, Except.isOk, Except.toBool]

theorem notFullyMergedMsg_mentions (name branch e : String) :
    strContains (notFullyMergedMsg name branch e) e = true ∧
    strContains (notFullyMergedMsg name branch e) "git forest rm --force" = true := by
  constructor
  · exact strContains_append_mid _ e _
  · apply strContains_append_right
    apply strContains_append_right
    apply strContains_append_right
    decide

/-- C3: when a non-forced branch delete's plain safe delete (`-d`) is
rejected, the branch is deleted (assuming the subsequent forced delete call
succeeds when issued) if and only if one of the two safety fallbacks holds —
(1) the branch is a git ancestor of its base branch, or (2) it has upstream
tracking and `rev-list --count upstream..branch` is zero; if neither holds,
no forced delete is issued and the recorded failure embeds the original
rejection text and suggests `git forest rm --force`. -/
theorem delete_branch_safe_fallbacks (env : GitEnv) (rp : RepoRmPlan) (e s : String)
    (hbc : rp.branchCreated = true) (hsrc : rp.sourceExists = true)
    (hd : env.git rp.source ["branch", "-d", rp.branch] = .error e)
    (hD : env.git rp.source ["branch", "-D", rp.branch] = .ok s) :
    ((can_safely_force_delete env rp.source rp.branch rp.baseBranch).1 = true ↔
      ((env.git rp.source ["merge-base", "--is-ancestor", rp.branch, rp.baseBranch]).isOk = true ∨
       (∃ u, env.git rp.source
            ["for-each-ref", "--format=%(upstream:short)", "refs/heads/" ++ rp.branch] = .ok u ∧
          u.isEmpty = false ∧
          ∃ c, env.git rp.source ["rev-list", "--count", u ++ ".." ++ rp.branch] = .ok c ∧
            c.trim = "0"))) ∧
    ((can_safely_force_delete env rp.source rp.branch rp.baseBranch).1 = true →
      (delete_branch env rp false true).1 = .success ∧
      Effect.gitCall rp.source ["branch", "-D", rp.branch] ∈
        (delete_branch env rp false true).2.2) ∧
    ((can_safely_force_delete env rp.source rp.branch rp.baseBranch).1 = false →
      (delete_branch env rp false true).1 = .failed (notFullyMergedMsg rp.name rp.branch e) ∧
      Effect.gitCall rp.source ["branch", "-D", rp.branch] ∉
        (delete_branch env rp false true).2.2 ∧
      strContains (notFullyMergedMsg rp.name rp.branch e) e = true ∧
      strContains (notFullyMergedMsg rp.name rp.branch e) "git forest rm --force" = true) := by
  refine ⟨csfd_spec env rp.source rp.branch rp.baseBranch, ?_, ?_⟩
  · intro hfb
    constructor
    · simp [delete_branch, hbc, hsrc, hd, hfb, hD]
    · simp [delete_branch, hbc, hsrc, hd, hfb, hD]
  · intro hfb
    have heq : (delete_branch env rp false true).2.2 =
        Effect.gitCall rp.source ["branch", "-d", rp.branch] ::
          (can_safely_force_delete env rp.source rp.branch rp.baseBranch).2 := by
      simp [delete_branch, hbc, hsrc, hd, hfb]
    refine ⟨?_, ?_, (notFullyMergedMsg_mentions rp.name rp.branch e).1,
      (notFullyMergedMsg_mentions rp.name rp.branch e).2⟩
    · simp [delete_branch, hbc, hsrc, hd, hfb, notFullyMergedMsg]
    · intro hmem
      rw [heq] at hmem
      rcases List.mem_cons.mp hmem with hmem | hmem
      · have harg : (["branch", "-D", rp.branch] : List String) =
            ["branch", "-d", rp.branch] := by
          injection hmem with _ h
        simp at harg
      · rcases csfd_effects_shape env rp.source rp.branch rp.baseBranch _ hmem with
          ⟨a, ha, hh⟩
        have harg : a = ["branch", "-D", rp.branch] := by
          injection ha with h1 h2
          exact h2.symm
        subst harg
        rcases hh with hh | hh | hh <;> simp at hh

/-- A removal plan entry whose plain safe delete the environment rejects. -/
def rpPushed : RepoRmPlan :=
  { name := "api"
    worktreePath := { absolute := true, components := ["w", "f", "api"] }
    source := { absolute := true, components := ["s", "api"] }
    branch := "feat"
    baseBranch := "main"
    branchCreated := true
    worktreeExists := true
    sourceExists := true
    hasDirtyFiles := false }

/-- An environment where `git branch -d feat` is rejected but everything
else (in particular the ancestor check and `git branch -D`) succeeds. -/
def envDRejected : GitEnv :=
  { envAllOk with
    git := fun _ a =>
      if a = ["branch", "-d", "feat"] then .error "not fully merged" else .ok "" }

/-- C3 witness: with the safe delete rejected and the ancestor fallback
holding, the branch is force-deleted and reported as a success. -/
theorem delete_branch_safe_fallbacks_witness :
    (envDRejected.git rpPushed.source ["branch", "-d", rpPushed.branch] =
        .error "not fully merged" ∧
     envDRejected.git rpPushed.source ["branch", "-D", rpPushed.branch] = .ok "" ∧
     rpPushed.branchCreated = true ∧ rpPushed.sourceExists = true) ∧
    ((delete_branch envDRejected rpPushed false true).1 = .success ∧
     Effect.gitCall rpPushed.source ["branch", "-D", rpPushed.branch] ∈
       (delete_branch envDRejected rpPushed false true).2.2) :=
  ⟨⟨rfl, rfl, rfl, rfl⟩,
   (delete_branch_safe_fallbacks envDRejected rpPushed "not fully merged" ""
      rfl rfl rfl rfl).2.1 rfl⟩

-- ## C7 — the creation planner is not quite pure

/-- C7 amended part: `plan_forest` makes no external mutating call except,
possibly, a single `create_dir_all` on the worktree base; and when the
worktree base already exists, it makes no call at all. -/
theorem plan_forest_effects (env : GitEnv) (inputs : NewInputs) (tmpl : ResolvedTemplate) :
    ((plan_forest env inputs tmpl).2 = [] ∨
     (plan_forest env inputs tmpl).2 = [Effect.fsCreateDirAll tmpl.worktreeBase]) ∧
    (env.pathExists tmpl.worktreeBase = true → (plan_forest env inputs tmpl).2 = []) := by
  cases hv : plan_forest_validate inputs tmpl with
  | error e => constructor <;> simp [plan_forest, hv]
  | ok forestName =>
    cases hp : env.pathExists tmpl.worktreeBase with
    | true => constructor <;> simp [plan_forest, hv, hp]
    | false =>
      cases hc : env.createDirAll tmpl.worktreeBase with
      | error e => constructor <;> simp [plan_forest, hv, hp, hc]
      | ok u => constructor <;> simp [plan_forest, hv, hp, hc]

/-- Creation inputs for the purity counterexample. -/
def inputsPurity : NewInputs :=
  { name := "f"
    mode := .feature
    branchOverride := none
    repoBranches := []
    noFetch := true
    dryRun := false }

/-- A one-repository template whose worktree base does not exist yet. -/
def tmplPurity : ResolvedTemplate :=
  { worktreeBase := { absolute := true, components := ["base"] }
    baseBranch := "main"
    featureBranchTemplate := "u/\x7bname\x7d"
    repos :=
      [{ path := { absolute := true, components := ["src", "a"] }
         name := "a"
         baseBranch := "main"
         remote := "origin" }] }

/-- An environment where nothing exists on disk: the worktree base is
missing (so the planner creates it) and the source repository is missing
(so planning then fails with a precondition error). -/
def envNothingExists : GitEnv :=
  { envAllOk with pathExists := fun _ => false, isDir := fun _ => false }

/-- C7 counterexample: `plan_forest` is not a pure function — on this input
it returns a precondition error, yet the filesystem was mutated: the
worktree base directory was created (`create_dir_all`) before the failing
check ran. -/
theorem plan_forest_not_pure :
    (plan_forest envNothingExists inputsPurity tmplPurity).2 =
      [Effect.fsCreateDirAll tmplPurity.worktreeBase] ∧
    (∃ e, (plan_forest envNothingExists inputsPurity tmplPurity).1 = .error e) ∧
    (plan_forest envNothingExists inputsPurity tmplPurity).2 ≠ [] :=
  ⟨rfl, ⟨_, rfl⟩, by decide⟩

/-- C7 amended: with the mutation confined to that one step — no git call,
no removal, no write — and errors raised by the input validations (invalid
name, empty template, duplicate or unknown repo-branch keys) occurring
before it, the planner touches nothing when the worktree base already
exists. -/
theorem plan_forest_effects_witness :
    envAllOk.pathExists tmplPurity.worktreeBase = true ∧
    (plan_forest envAllOk inputsPurity tmplPurity).2 = [] :=
  ⟨rfl, (plan_forest_effects envAllOk inputsPurity tmplPurity).2 rfl⟩

-- ## C9 — path containment of destructive targets

theorem buildRepoPlans_dest (env : GitEnv) (inputs : NewInputs) (tmpl : ResolvedTemplate)
    (forestName : String) (fdir : RPath) :
    ∀ (repos : List ResolvedRepo) (plans : List RepoPlan),
      buildRepoPlans env inputs tmpl forestName fdir repos = .ok plans →
      ∀ rp ∈ plans, ∃ r ∈ repos, rp.dest = fdir.joinStr r.name := by
  intro repos
  induction repos with
  | nil =>
    intro plans h rp hrp
    simp only [buildRepoPlans] at h
    injection h with h
    subst h
    simp at hrp
  | cons repo rest ih =>
    intro plans h rp hrp
    simp only [buildRepoPlans] at h
    split at h
    · exact absurd h (by simp)
    · split at h
      · exact absurd h (by simp)
      · split at h
        · exact absurd h (by simp)
        · rename_i plans' hbr
          injection h with h
          subst h
          rcases List.mem_cons.mp hrp with hrp | hrp
          · exact ⟨repo, List.mem_cons_self _ _, by rw [hrp]⟩
          · obtain ⟨r, hr, hd⟩ := ih plans' hbr rp hrp
            exact ⟨r, List.mem_cons_of_mem _ hr, hd⟩

theorem plan_forest_checks_shape (env : GitEnv) (inputs : NewInputs)
    (tmpl : ResolvedTemplate) (forestName : String) (fdir : RPath) (plan : ForestPlan)
    (h : plan_forest_checks env inputs tmpl forestName fdir = .ok plan) :
    plan.forestDir = fdir ∧
    buildRepoPlans env inputs tmpl forestName fdir tmpl.repos = .ok plan.repoPlans := by
  simp only [plan_forest_checks] at h
  split at h
  · exact absurd h (by simp)
  · split at h
    · exact absurd h (by simp)
    · exact absurd h (by simp)
    · split at h
      · exact absurd h (by simp)
      · split at h
        · exact absurd h (by simp)
        · split at h
          · exact absurd h (by simp)
          · split at h
            · exact absurd h (by simp)
            · rename_i plans hbr
              injection h with h
              subst h
              exact ⟨rfl, hbr⟩

theorem plan_forest_ok_shape (env : GitEnv) (inputs : NewInputs)
    (tmpl : ResolvedTemplate) (plan : ForestPlan)
    (h : (plan_forest env inputs tmpl).1 = .ok plan) :
    ∃ forestName,
      buildRepoPlans env inputs tmpl forestName plan.forestDir tmpl.repos =
        .ok plan.repoPlans := by
  simp only [plan_forest] at h
  split at h
  · exact absurd h (by simp)
  · rename_i forestName hval
    split at h
    · have h' : plan_forest_checks env inputs tmpl forestName
          (forest_dir tmpl.worktreeBase forestName) = .ok plan := h
      obtain ⟨h1, h2⟩ := plan_forest_checks_shape env inputs tmpl forestName _ plan h'
      exact ⟨forestName, by rw [h1]; exact h2⟩
    · split at h
      · exact absurd h (by simp)
      · have h' : plan_forest_checks env inputs tmpl forestName
            (forest_dir tmpl.worktreeBase forestName) = .ok plan := h
        obtain ⟨h1, h2⟩ := plan_forest_checks_shape env inputs tmpl forestName _ plan h'
        exact ⟨forestName, by rw [h1]; exact h2⟩

theorem plan_rm_worktreePath (env : GitEnv) (forestDir : RPath) (meta : ForestMeta) :
    ∀ rp ∈ (plan_rm env forestDir meta).repoPlans,
      ∃ r ∈ meta.repos, rp.worktreePath = forestDir.joinStr r.name := by
  intro rp hrp
  simp only [plan_rm, List.mem_map] at hrp
  obtain ⟨r, hr, heq⟩ := hrp
  exact ⟨r, hr, by rw [← heq]⟩

theorem rmRepoLoop_isSome (env : GitEnv) (forestDir : RPath) (force : Bool) :
    ∀ l : List RepoRmPlan,
      (∀ rp ∈ l, rp.worktreePath.startsWith forestDir = true) →
      (rmRepoLoop env forestDir force l).isSome = true := by
  intro l
  induction l with
  | nil => intro _; rfl
  | cons rp rest ih =>
    intro hc
    have h1 : rp.worktreePath.startsWith forestDir = true := hc rp (List.mem_cons_self _ _)
    have h2 := ih (fun x hx => hc x (List.mem_cons_of_mem _ hx))
    simp only [rmRepoLoop, h1, if_true]
    cases hres : rmRepoLoop env forestDir force rest with
    | none => rw [hres] at h2; simp at h2
    | some t => simp

/-- C9 amended: every destructive path targeted by removal execution,
creation rollback, and reset teardown is `<forest_dir>/<repo_name>`, so
containment (`starts_with(forest_dir)`) holds — and the defensive
assertions never fire — **provided no repository name is an absolute path**
(repo names are only validated nonempty, so a name beginning with `/` makes
`join` discard the forest directory entirely; see the counterexample). -/
theorem planner_paths_contained (env : GitEnv) :
    (∀ (forestDir : RPath) (meta : ForestMeta),
      (∀ r ∈ meta.repos, strHasRoot r.name = false) →
      (∀ rp ∈ (plan_rm env forestDir meta).repoPlans,
        rp.worktreePath.startsWith forestDir = true) ∧
      ∀ force, (execute_rm env (plan_rm env forestDir meta) force).isSome = true) ∧
    (∀ (inputs : NewInputs) (tmpl : ResolvedTemplate) (plan : ForestPlan),
      (plan_forest env inputs tmpl).1 = .ok plan →
      (∀ r ∈ tmpl.repos, strHasRoot r.name = false) →
      ∀ rp ∈ plan.repoPlans, rp.dest.startsWith plan.forestDir = true) ∧
    (∀ (base : RPath) (meta : ForestMeta),
      (∀ r ∈ meta.repos, strHasRoot r.name = false) →
      ∀ ri ∈ (forestInfoOfMeta base meta).repos,
        ri.worktreeDir.startsWith (forestInfoOfMeta base meta).path = true) := by
  refine ⟨?_, ?_, ?_⟩
  · intro forestDir meta hnames
    have hcont : ∀ rp ∈ (plan_rm env forestDir meta).repoPlans,
        rp.worktreePath.startsWith forestDir = true := by
      intro rp hrp
      obtain ⟨r, hr, heq⟩ := plan_rm_worktreePath env forestDir meta rp hrp
      rw [heq]
      exact joinStr_startsWith forestDir r.name (hnames r hr)
    refine ⟨hcont, ?_⟩
    intro force
    simp only [execute_rm]
    split
    · rfl
    · have hsome := rmRepoLoop_isSome env forestDir force
        (plan_rm env forestDir meta).repoPlans hcont
      rw [show (plan_rm env forestDir meta).forestDir = forestDir from rfl]
      cases hres : rmRepoLoop env forestDir force (plan_rm env forestDir meta).repoPlans with
      | none => rw [hres] at hsome; simp at hsome
      | some t => rfl
  · intro inputs tmpl plan hok hnames rp hrp
    obtain ⟨forestName, hbr⟩ := plan_forest_ok_shape env inputs tmpl plan hok
    obtain ⟨r, hr, heq⟩ := buildRepoPlans_dest env inputs tmpl forestName plan.forestDir
      tmpl.repos plan.repoPlans hbr rp hrp
    rw [heq]
    exact joinStr_startsWith plan.forestDir r.name (hnames r hr)
  · intro base meta hnames ri hri
    simp only [forestInfoOfMeta, List.mem_map] at hri
    obtain ⟨r, hr, heq⟩ := hri
    rw [← heq]
    exact joinStr_startsWith _ r.name (hnames r hr)

/-- A forest metadata record whose repository name is an absolute path —
accepted by `RepoName::new`, which only rejects the empty string. -/
def metaEscape : ForestMeta :=
  { name := "f"
    createdAt := 0
    mode := .feature
    repos :=
      [{ name := "/etc"
         source := { absolute := true, components := ["s", "a"] }
         branch := "b"
         baseBranch := "main"
         branchCreated := false }] }

/-- The forest directory for the containment counterexample. -/
def fdirEscape : RPath := { absolute := true, components := ["home", "u", "forests", "f"] }

/-- C9 counterexample: a valid (nonempty) repository name that is an
absolute path makes `PathBuf::join` discard the forest directory, so the
plan produced by `plan_rm` escapes containment and `execute_rm`'s defensive
assertion fires (modelled as `none`). -/
theorem plan_rm_containment_escape :
    RepoName.new "/etc" = .ok "/etc" ∧
    ((plan_rm envAllOk fdirEscape metaEscape).repoPlans.all
      (fun rp => rp.worktreePath.startsWith fdirEscape)) = false ∧
    execute_rm envAllOk (plan_rm envAllOk fdirEscape metaEscape) true = none :=
  ⟨rfl, rfl, rfl⟩

/-- A well-formed one-repository forest metadata record. -/
def metaGood : ForestMeta :=
  { name := "f"
    createdAt := 0
    mode := .feature
    repos :=
      [{ name := "api"
         source := { absolute := true, components := ["s", "api"] }
         branch := "feat"
         baseBranch := "main"
         branchCreated := true }] }

/-- C9 witness: with relative repository names, removal plans stay contained
and the executor's assertion never fires. -/
theorem planner_paths_contained_witness :
    (∀ r ∈ metaGood.repos, strHasRoot r.name = false) ∧
    (execute_rm envAllOk (plan_rm envAllOk fdirEscape metaGood) true).isSome = true :=
  ⟨by decide, ((planner_paths_contained envAllOk).1 fdirEscape metaGood (by decide)).2 true⟩

-- ## C6 — dry run versus execution

theorem remove_worktree_allOk (env : GitEnv) (rp : RepoRmPlan) (force : Bool)
    (hgit : ∀ a, (env.git rp.source a).isOk = true)
    (hsrc : rp.sourceExists = true) :
    ∃ effs, remove_worktree env rp force =
      ((if !rp.worktreeExists then .skipped "worktree already missing" else .success),
       true, [], effs) := by
  cases hw : rp.worktreeExists with
  | false => exact ⟨[], by simp [remove_worktree, hw]⟩
  | true =>
    have h := hgit ("worktree" :: "remove" ::
      ((if force then ["--force"] else []) ++ [rp.worktreePath.render]))
    cases hc : env.git rp.source ("worktree" :: "remove" ::
        ((if force then ["--force"] else []) ++ [rp.worktreePath.render])) with
    | error e => rw [hc] at h; simp [Except.isOk, Except.toBool] at h
    | ok s =>
      refine ⟨[Effect.gitCall rp.source ("worktree" :: "remove" ::
        ((if force then ["--force"] else []) ++ [rp.worktreePath.render]))], ?_⟩
      simp [remove_worktree, hw, hsrc, hc]

theorem delete_branch_allOk (env : GitEnv) (rp : RepoRmPlan) (force : Bool)
    (hgit : ∀ a, (env.git rp.source a).isOk = true)
    (hsrc : rp.sourceExists = true) :
    ∃ effs, delete_branch env rp force true =
      ((if !rp.branchCreated then .skipped "branch not created by forest" else .success),
       [], effs) := by
  cases hb : rp.branchCreated with
  | false => exact ⟨[], by simp [delete_branch, hb]⟩
  | true =>
    cases force with
    | true =>
      have h := hgit ["branch", "-D", rp.branch]
      cases hc : env.git rp.source ["branch", "-D", rp.branch] with
      | error e => rw [hc] at h; simp [Except.isOk, Except.toBool] at h
      | ok s =>
        refine ⟨[Effect.gitCall rp.source ["branch", "-D", rp.branch]], ?_⟩
        simp [delete_branch, hb, hsrc, hc]
    | false =>
      have h := hgit ["branch", "-d", rp.branch]
      cases hc : env.git rp.source ["branch", "-d", rp.branch] with
      | error e => rw [hc] at h; simp [Except.isOk, Except.toBool] at h
      | ok s =>
        refine ⟨[Effect.gitCall rp.source ["branch", "-d", rp.branch]], ?_⟩
        simp [delete_branch, hb, hsrc, hc]

theorem rmRepoLoop_allOk (env : GitEnv) (forestDir : RPath) (force : Bool) :
    ∀ l : List RepoRmPlan,
      (∀ rp ∈ l, ∀ a, (env.git rp.source a).isOk = true) →
      (∀ rp ∈ l, rp.sourceExists = true) →
      (∀ rp ∈ l, rp.worktreePath.startsWith forestDir = true) →
      ∃ effs, rmRepoLoop env forestDir force l =
        some (l.map dryRunRepoNormal, [], effs) := by
  intro l
  induction l with
  | nil => intro _ _ _; exact ⟨[], rfl⟩
  | cons rp rest ih =>
    intro hgit hsrc hcont
    obtain ⟨eff1, hwt⟩ := remove_worktree_allOk env rp force
      (hgit rp (List.mem_cons_self _ _)) (hsrc rp (List.mem_cons_self _ _))
    obtain ⟨eff2, hbr⟩ := delete_branch_allOk env rp force
      (hgit rp (List.mem_cons_self _ _)) (hsrc rp (List.mem_cons_self _ _))
    obtain ⟨effs, hrest⟩ := ih
      (fun x hx => hgit x (List.mem_cons_of_mem _ hx))
      (fun x hx => hsrc x (List.mem_cons_of_mem _ hx))
      (fun x hx => hcont x (List.mem_cons_of_mem _ hx))
    refine ⟨eff1 ++ (eff2 ++ effs), ?_⟩
    simp [rmRepoLoop, hcont rp (List.mem_cons_self _ _), hwt, hbr, hrest,
      dryRunRepoNormal]

theorem remove_forest_dir_allOk (env : GitEnv) (forestDir : RPath) (force : Bool)
    (hrd : ∀ p, (env.removeDirAll p).isOk = true)
    (hrf : ∀ p, (env.removeFile p).isOk = true)
    (hrr : ∀ p, (env.removeDir p).isOk = true) :
    ∃ effs, remove_forest_dir env forestDir force = (true, [], effs) := by
  cases hp : env.pathExists forestDir with
  | false => exact ⟨[], by simp [remove_forest_dir, hp]⟩
  | true =>
    cases force with
    | true =>
      have h := hrd forestDir
      cases hc : env.removeDirAll forestDir with
      | error e => rw [hc] at h; simp [Except.isOk, Except.toBool] at h
      | ok u =>
        refine ⟨[Effect.fsRemoveDirAll forestDir], ?_⟩
        simp [remove_forest_dir, hp, hc]
    | false =>
      cases hm : env.pathExists (forestDir.joinStr META_FILENAME) with
      | true =>
        have h1 := hrf (forestDir.joinStr META_FILENAME)
        cases hc1 : env.removeFile (forestDir.joinStr META_FILENAME) with
        | error e => rw [hc1] at h1; simp [Except.isOk, Except.toBool] at h1
        | ok u =>
          have h2 := hrr forestDir
          cases hc2 : env.removeDir forestDir with
          | error e => rw [hc2] at h2; simp [Except.isOk, Except.toBool] at h2
          | ok v =>
            refine ⟨[Effect.fsRemoveFile (forestDir.joinStr META_FILENAME),
              Effect.fsRemoveDir forestDir], ?_⟩
            simp [remove_forest_dir, hp, hm, hc1, hc2]
      | false =>
        have h2 := hrr forestDir
        cases hc2 : env.removeDir forestDir with
        | error e => rw [hc2] at h2; simp [Except.isOk, Except.toBool] at h2
        | ok v =>
          refine ⟨[Effect.fsRemoveDir forestDir], ?_⟩
          simp [remove_forest_dir, hp, hm, hc2]

/-- C6 amended: the dry run mirrors execution's per-repository statuses,
error list and forest-directory outcome — including the all-or-nothing
dirty-preflight rejection — **provided every repository's source still
exists** (and the environment's git/fs operations succeed); the dry run
itself is a pure function of the frozen plan. When a source repository is
missing, execution reports `branch_deleted = Skipped("source repo
missing")` where the dry run predicts `Success` (see the counterexample). -/
theorem dry_run_mirrors_execute (env : GitEnv) (plan : RmPlan) (force : Bool)
    (hgit : ∀ p a, (env.git p a).isOk = true)
    (hrd : ∀ p, (env.removeDirAll p).isOk = true)
    (hrf : ∀ p, (env.removeFile p).isOk = true)
    (hrr : ∀ p, (env.removeDir p).isOk = true)
    (hsrc : ∀ rp ∈ plan.repoPlans, rp.sourceExists = true)
    (hcont : ∀ rp ∈ plan.repoPlans, rp.worktreePath.startsWith plan.forestDir = true) :
    ∃ r effs, execute_rm env plan force = some (r, effs) ∧
      r.repos = (plan_to_dry_run_result plan force).repos ∧
      r.errors = (plan_to_dry_run_result plan force).errors ∧
      r.forestDirRemoved = (plan_to_dry_run_result plan force).forestDirRemoved := by
  cases hD : (!force && plan.repoPlans.any (·.hasDirtyFiles)) with
  | true =>
    cases hp : dirtyPreflightRepos plan.repoPlans with
    | mk rs es =>
      refine ⟨{ forestName := plan.forestName
                forestDir := plan.forestDir
                dryRun := false
                force := force
                repos := rs
                forestDirRemoved := false
                errors := es ++ [rmHint] }, [], ?_, ?_, ?_, ?_⟩ <;>
        simp [execute_rm, plan_to_dry_run_result, hD, hp]
  | false =>
    obtain ⟨effs, hloop⟩ := rmRepoLoop_allOk env plan.forestDir force plan.repoPlans
      (fun rp _ a => hgit rp.source a) hsrc hcont
    obtain ⟨effs2, hdir⟩ := remove_forest_dir_allOk env plan.forestDir force hrd hrf hrr
    refine ⟨{ forestName := plan.forestName
              forestDir := plan.forestDir
              dryRun := false
              force := force
              repos := plan.repoPlans.map dryRunRepoNormal
              forestDirRemoved := true
              errors := [] }, effs ++ effs2, ?_, ?_, ?_, ?_⟩ <;>
      simp [execute_rm, plan_to_dry_run_result, hD, hloop, hdir]

/-- A one-repository plan whose source repository has vanished but whose
worktree is clean and present. -/
def rmPlanSourceGone : RmPlan :=
  { forestName := "f"
    forestDir := { absolute := true, components := ["w", "f"] }
    repoPlans :=
      [{ name := "api"
         worktreePath := { absolute := true, components := ["w", "f", "api"] }
         source := { absolute := true, components := ["s", "api"] }
         branch := "feat"
         baseBranch := "main"
         branchCreated := true
         worktreeExists := true
         sourceExists := false
         hasDirtyFiles := false }] }

/-- C6 counterexample: the dry run does not replicate execution's
`source_exists` gate on branch deletion — on the same frozen probe state,
execution (with every external call succeeding) reports the branch
`Skipped("source repo missing")` while the dry run reports `Success`. -/
theorem dry_run_mismatch_source_gone :
    ((execute_rm envAllOk rmPlanSourceGone false).map (fun pr => pr.1.repos) =
      some [{ name := "api", worktreeRemoved := .success
              branchDeleted := .skipped "source repo missing" }]) ∧
    (plan_to_dry_run_result rmPlanSourceGone false).repos =
      [{ name := "api", worktreeRemoved := .success, branchDeleted := .success }] ∧
    (execute_rm envAllOk rmPlanSourceGone false).map (fun pr => pr.1.repos) ≠
      some ((plan_to_dry_run_result rmPlanSourceGone false).repos) := by
  refine ⟨rfl, rfl, by decide⟩

/-- C6 witness: on a plan whose sources all exist (here with one dirty
repository, exercising the preflight branch), execution and dry run agree
on statuses, errors and the forest-directory outcome. -/
theorem dry_run_mirrors_execute_witness :
    (∀ rp ∈ rmPlanDirty.repoPlans, rp.sourceExists = true) ∧
    (∃ r effs, execute_rm envAllOk rmPlanDirty false = some (r, effs) ∧
      r.repos = (plan_to_dry_run_result rmPlanDirty false).repos ∧
      r.errors = (plan_to_dry_run_result rmPlanDirty false).errors ∧
      r.forestDirRemoved = (plan_to_dry_run_result rmPlanDirty false).forestDirRemoved) :=
  ⟨by decide,
   dry_run_mirrors_execute envAllOk rmPlanDirty false
     (fun _ _ => rfl) (fun _ => rfl) (fun _ => rfl) (fun _ => rfl)
     (by decide) (by decide)⟩

-- ## C2 — creation rollback atomicity

theorem rollbackEffects_of_contained (forestDir : RPath) :
    ∀ l : List (RPath × RPath),
      (∀ pr ∈ l, pr.2.startsWith forestDir = true) →
      rollbackEffects forestDir l = some (l.map (fun pr =>
        Effect.gitCall pr.1 ["worktree", "remove", "--force", pr.2.render])) := by
  intro l
  induction l with
  | nil => intro _; rfl
  | cons pr rest ih =>
    intro hc
    have h1 : pr.2.startsWith forestDir = true := hc pr (List.mem_cons_self _ _)
    have h2 := ih (fun x hx => hc x (List.mem_cons_of_mem _ hx))
    cases pr with
    | mk source dest => simp_all [rollbackEffects]

theorem runEffects_append (env : GitEnv) (l1 l2 : List Effect) (fs : RPath → Bool) :
    runEffects env fs (l1 ++ l2) = runEffects env (runEffects env fs l1) l2 := by
  induction l1 generalizing fs with
  | nil => rfl
  | cons x rest ih => simp [runEffects, ih]

/-- The effect trace of the successful portion of the creation loop: one
`git worktree add` and one meta rewrite per repository. -/
def addEffs (metaPath : RPath) : List RepoPlan → List Effect
  | [] => []
  | rp :: rest =>
    .gitCall rp.source (worktreeAddArgs rp) :: .fsWriteFile metaPath :: addEffs metaPath rest

theorem newRepoLoop_fail (env : GitEnv) (forestDir metaPath : RPath)
    (rpk : RepoPlan) (post : List RepoPlan) (e : String)
    (hk : env.git rpk.source (worktreeAddArgs rpk) = .error e)
    (hw : (env.writeFile metaPath).isOk = true) :
    ∀ (pre : List RepoPlan) (created : List (RPath × RPath)) (metas : List RepoMeta),
      (∀ rp ∈ pre, (env.git rp.source (worktreeAddArgs rp)).isOk = true) →
      (∀ pr ∈ created ++ pre.map (fun rp => (rp.source, rp.dest)),
        pr.2.startsWith forestDir = true) →
      newRepoLoop env forestDir metaPath (pre ++ rpk :: post) created metas =
        some (.error e,
          addEffs metaPath pre ++
          (Effect.gitCall rpk.source (worktreeAddArgs rpk) ::
            ((created ++ pre.map (fun rp => (rp.source, rp.dest))).map (fun pr =>
              Effect.gitCall pr.1 ["worktree", "remove", "--force", pr.2.render]) ++
             [Effect.fsRemoveDirAll forestDir]))) := by
  intro pre
  induction pre with
  | nil =>
    intro created metas _ hcont
    have hrb := rollbackEffects_of_contained forestDir created
      (fun pr hpr => hcont pr (by simpa using hpr))
    simp [newRepoLoop, hk, hrb, addEffs]
  | cons rp pre' ih =>
    intro created metas hpre hcont
    have hhead := hpre rp (List.mem_cons_self _ _)
    cases hs : env.git rp.source (worktreeAddArgs rp) with
    | error e' => rw [hs] at hhead; simp [Except.isOk, Except.toBool] at hhead
    | ok s =>
      cases hwc : env.writeFile metaPath with
      | error e' => rw [hwc] at hw; simp [Except.isOk, Except.toBool] at hw
      | ok u =>
        have hcont' : ∀ pr ∈ (created ++ [(rp.source, rp.dest)]) ++
            pre'.map (fun x => (x.source, x.dest)), pr.2.startsWith forestDir = true := by
          intro pr hpr
          apply hcont pr
          simp only [List.map_cons, List.append_assoc, List.singleton_append] at hpr ⊢
          exact hpr
        have ih' := ih (created ++ [(rp.source, rp.dest)]) (metas ++ [repoMetaOf rp])
          (fun x hx => hpre x (List.mem_cons_of_mem _ hx)) hcont'
        simp only [List.cons_append, newRepoLoop, hs, hwc, List.append_eq]
        rw [ih']
        simp [addEffs, List.append_assoc]

/-- C2: if the worktree-creation step fails on repository `k` of a plan with
at least two repositories (each earlier repository's creation and meta
rewrite having succeeded), `execute_plan` returns the original git failure;
the trace shows one forced `git worktree remove` against the source of every
repository created before the failure, ends with the recursive deletion of
the forest directory, and — that deletion succeeding — no path under the
forest directory (metadata file included) exists afterwards. -/
theorem execute_plan_rollback (env : GitEnv) (plan : ForestPlan)
    (pre : List RepoPlan) (rpk : RepoPlan) (post : List RepoPlan) (e : String)
    (hsplit : plan.repoPlans = pre ++ rpk :: post)
    (hlen : 2 ≤ plan.repoPlans.length)
    (hpre : ∀ rp ∈ pre, (env.git rp.source (worktreeAddArgs rp)).isOk = true)
    (hk : env.git rpk.source (worktreeAddArgs rpk) = .error e)
    (hcd : (env.createDir plan.forestDir).isOk = true)
    (hwf : (env.writeFile (plan.forestDir.joinStr META_FILENAME)).isOk = true)
    (hcont : ∀ rp ∈ pre, rp.dest.startsWith plan.forestDir = true)
    (hrm : (env.removeDirAll plan.forestDir).isOk = true) :
    ∃ effs, execute_plan env plan = some (.error e, effs) ∧
      (∀ rp ∈ pre, Effect.gitCall rp.source
        ["worktree", "remove", "--force", rp.dest.render] ∈ effs) ∧
      effs.getLast? = some (Effect.fsRemoveDirAll plan.forestDir) ∧
      (∀ (fs0 : RPath → Bool) (q : RPath), q.startsWith plan.forestDir = true →
        runEffects env fs0 effs q = false) := by
  have hcont' : ∀ pr ∈ ([] : List (RPath × RPath)) ++
      pre.map (fun rp => (rp.source, rp.dest)), pr.2.startsWith plan.forestDir = true := by
    intro pr hpr
    simp only [List.nil_append, List.mem_map] at hpr
    obtain ⟨rp, hrp, rfl⟩ := hpr
    exact hcont rp hrp
  have hloop := newRepoLoop_fail env plan.forestDir (plan.forestDir.joinStr META_FILENAME)
    rpk post e hk hwf pre [] [] hpre hcont'
  rw [List.nil_append] at hloop
  refine ⟨Effect.fsCreateDir plan.forestDir ::
    Effect.fsWriteFile (plan.forestDir.joinStr META_FILENAME) ::
    (addEffs (plan.forestDir.joinStr META_FILENAME) pre ++
     (Effect.gitCall rpk.source (worktreeAddArgs rpk) ::
      ((pre.map (fun rp => (rp.source, rp.dest))).map (fun pr =>
        Effect.gitCall pr.1 ["worktree", "remove", "--force", pr.2.render]) ++
       [Effect.fsRemoveDirAll plan.forestDir]))), ?_, ?_, ?_, ?_⟩
  · cases hc1 : env.createDir plan.forestDir with
    | error e1 => rw [hc1] at hcd; simp [Except.isOk, Except.toBool] at hcd
    | ok u1 =>
      cases hc2 : env.writeFile (plan.forestDir.joinStr META_FILENAME) with
      | error e2 => rw [hc2] at hwf; simp [Except.isOk, Except.toBool] at hwf
      | ok u2 =>
        simp only [execute_plan, hc1, hc2, hsplit, hloop]
  · intro rp hrp
    have hm : Effect.gitCall rp.source ["worktree", "remove", "--force", rp.dest.render] ∈
        (pre.map (fun rp => (rp.source, rp.dest))).map (fun pr =>
          Effect.gitCall pr.1 ["worktree", "remove", "--force", pr.2.render]) :=
      List.mem_map.mpr ⟨(rp.source, rp.dest), List.mem_map.mpr ⟨rp, hrp, rfl⟩, rfl⟩
    simp only [List.mem_cons, List.mem_append]
    tauto
  · rw [show Effect.fsCreateDir plan.forestDir ::
        Effect.fsWriteFile (plan.forestDir.joinStr META_FILENAME) ::
        (addEffs (plan.forestDir.joinStr META_FILENAME) pre ++
         (Effect.gitCall rpk.source (worktreeAddArgs rpk) ::
          ((pre.map (fun rp => (rp.source, rp.dest))).map (fun pr =>
            Effect.gitCall pr.1 ["worktree", "remove", "--force", pr.2.render]) ++
           [Effect.fsRemoveDirAll plan.forestDir]))) =
        (Effect.fsCreateDir plan.forestDir ::
         Effect.fsWriteFile (plan.forestDir.joinStr META_FILENAME) ::
         (addEffs (plan.forestDir.joinStr META_FILENAME) pre ++
          (Effect.gitCall rpk.source (worktreeAddArgs rpk) ::
           (pre.map (fun rp => (rp.source, rp.dest))).map (fun pr =>
             Effect.gitCall pr.1 ["worktree", "remove", "--force", pr.2.render])))) ++
        [Effect.fsRemoveDirAll plan.forestDir]
      from by simp [List.append_assoc]]
    exact List.getLast?_concat _
  · intro fs0 q hq
    rw [show Effect.fsCreateDir plan.forestDir ::
        Effect.fsWriteFile (plan.forestDir.joinStr META_FILENAME) ::
        (addEffs (plan.forestDir.joinStr META_FILENAME) pre ++
         (Effect.gitCall rpk.source (worktreeAddArgs rpk) ::
          ((pre.map (fun rp => (rp.source, rp.dest))).map (fun pr =>
            Effect.gitCall pr.1 ["worktree", "remove", "--force", pr.2.render]) ++
           [Effect.fsRemoveDirAll plan.forestDir]))) =
        (Effect.fsCreateDir plan.forestDir ::
         Effect.fsWriteFile (plan.forestDir.joinStr META_FILENAME) ::
         (addEffs (plan.forestDir.joinStr META_FILENAME) pre ++
          (Effect.gitCall rpk.source (worktreeAddArgs rpk) ::
           (pre.map (fun rp => (rp.source, rp.dest))).map (fun pr =>
             Effect.gitCall pr.1 ["worktree", "remove", "--force", pr.2.render])))) ++
        [Effect.fsRemoveDirAll plan.forestDir]
      from by simp [List.append_assoc]]
    rw [runEffects_append]
    simp [runEffects, applyEffect, hrm, hq]

/-- The two-repository creation plan for the rollback witness. -/
def planTwo : ForestPlan :=
  { forestName := "f"
    forestDir := { absolute := true, components := ["w", "f"] }
    mode := .feature
    repoPlans :=
      [{ name := "a"
         source := { absolute := true, components := ["s", "a"] }
         dest := { absolute := true, components := ["w", "f", "a"] }
         branch := "feat"
         baseBranch := "main"
         remote := "origin"
         checkout := .newBranch },
       { name := "b"
         source := { absolute := true, components := ["s", "b"] }
         dest := { absolute := true, components := ["w", "f", "b"] }
         branch := "feat"
         baseBranch := "main"
         remote := "origin"
         checkout := .newBranch }] }

/-- An environment in which every git call against the second repository's
source fails and everything else succeeds. -/
def envSecondFails : GitEnv :=
  { envAllOk with
    git := fun p _ =>
      if p = { absolute := true, components := ["s", "b"] } then .error "boom"
      else .ok "" }

/-- C2 witness: on the concrete two-repository plan whose second worktree
creation fails, `execute_plan` returns the original error, the first repo's
worktree-removal call is issued, and the forest directory does not survive
the trace. -/
theorem execute_plan_rollback_witness :
    (envSecondFails.git { absolute := true, components := ["s", "b"] }
        (worktreeAddArgs (planTwo.repoPlans.get ⟨1, by decide⟩)) = .error "boom" ∧
     2 ≤ planTwo.repoPlans.length) ∧
    (∃ effs, execute_plan envSecondFails planTwo = some (.error "boom", effs) ∧
      (∀ rp ∈ [planTwo.repoPlans.get ⟨0, by decide⟩], Effect.gitCall rp.source
        ["worktree", "remove", "--force", rp.dest.render] ∈ effs) ∧
      effs.getLast? = some (Effect.fsRemoveDirAll planTwo.forestDir) ∧
      (∀ (fs0 : RPath → Bool) (q : RPath), q.startsWith planTwo.forestDir = true →
        runEffects envSecondFails fs0 effs q = false)) :=
  ⟨⟨rfl, by decide⟩,
   execute_plan_rollback envSecondFails planTwo
     [planTwo.repoPlans.get ⟨0, by decide⟩] (planTwo.repoPlans.get ⟨1, by decide⟩) []
     "boom" rfl (by decide) (by decide) rfl rfl rfl (by decide) rfl⟩
